import Mathlib

/-!
Verification development for the blog-visualization script (`src/script.js`).

Modelling conventions (shallow embedding):
* A JavaScript string is a list of UTF-16 code points, `JStr := List Nat`.
* A JavaScript `Map` is an insertion-ordered association list; `alSet` keeps
  the original position of an updated key, `alGet?` is `Map.get`.
* CSV numbers that the script obtains via `parseFloat` / `parseInt` are
  modelled as `ℚ` / `Int`; a `NaN` outcome is modelled as `Option.none`.
* Fallible computations (a thrown `Error`, a `TypeError` on `undefined`)
  are modelled with `Except` / `Option`.
-/

/-- A JavaScript string: the list of its code points. -/
abbrev JStr := List Nat

/-- Embed a Lean string literal as a `JStr`. -/
def jstr (s : String) : JStr := s.data.map Char.toNat

/-- The JavaScript whitespace class (`\s`, also what `String.prototype.trim`
strips): tab, LF, VT, FF, CR, space, NBSP, Ogham space, the Unicode
`Zs` spaces, line/paragraph separators and the BOM. -/
def jsIsWs (c : Nat) : Bool :=
  c = 9 || c = 10 || c = 11 || c = 12 || c = 13 || c = 32 || c = 160 ||
  c = 0x1680 || (0x2000 ≤ c && c ≤ 0x200a) || c = 0x2028 || c = 0x2029 ||
  c = 0x202f || c = 0x205f || c = 0x3000 || c = 0xfeff

/-- ASCII lowering of one code point, as `String.prototype.toLowerCase`
acts on the ASCII range. -/
def jsToLower (c : Nat) : Nat := if 65 ≤ c ∧ c ≤ 90 then c + 32 else c

/-- The character class `[\w.]` of the slug regex in
`normalizeMarkerStyleKey`: ASCII word characters and the dot. -/
def jsIsWordDot (c : Nat) : Bool :=
  (48 ≤ c && c ≤ 57) || (65 ≤ c && c ≤ 90) || (97 ≤ c && c ≤ 122) ||
  c = 95 || c = 46

/-- `String.prototype.trim`: drop leading and trailing whitespace. -/
def jsTrim (s : JStr) : JStr :=
  ((s.dropWhile jsIsWs).reverse.dropWhile jsIsWs).reverse

/-- `String.prototype.split` with a one-character separator:
`"a,b,".split(",") = ["a","b",""]` and `"".split(",") = [""]`. -/
def splitOnChar (sep : Nat) : JStr → List JStr
  | [] => [[]]
  | c :: rest =>
    match splitOnChar sep rest with
    | [] => [[]]
    | h :: t => if c = sep then [] :: h :: t else (c :: h) :: t

/-- Worker for `collapseWs`; the flag records whether the previous
character belonged to a whitespace run already replaced by a space. -/
def collapseWsAux : Bool → JStr → JStr
  | _, [] => []
  | prevWs, c :: rest =>
    if jsIsWs c then
      if prevWs then collapseWsAux true rest
      else 32 :: collapseWsAux true rest
    else c :: collapseWsAux false rest

/-- `replace(/\s+/g, " ")`: each maximal whitespace run becomes one space. -/
def collapseWs (s : JStr) : JStr := collapseWsAux false s

/-- Worker for `slugify`; the flag records whether the previous character
belonged to a non-word run already replaced by an underscore. -/
def slugAux : Bool → JStr → JStr
  | _, [] => []
  | prevBad, c :: rest =>
    if jsIsWordDot c then c :: slugAux false rest
    else
      if prevBad then slugAux true rest
      else 95 :: slugAux true rest

/-- `replace(/[^\w.]+/g, "_")`: each maximal run of characters outside
`[\w.]` becomes one underscore. -/
def slugify (s : JStr) : JStr := slugAux false s

/-- One step of first-appearance deduplication: append `x` unless seen. -/
def dedupStep {α : Type} [DecidableEq α] (acc : List α) (x : α) : List α :=
  if x ∈ acc then acc else acc ++ [x]

/-- `[...new Set(xs)]`: deduplicate keeping first appearances in order. -/
def dedupFirst {α : Type} [DecidableEq α] (l : List α) : List α :=
  l.foldl dedupStep []

/-- `Map.prototype.get` on an insertion-ordered association list. -/
def alGet? {β : Type} : List (JStr × β) → JStr → Option β
  | [], _ => none
  | p :: rest, k => if p.1 = k then some p.2 else alGet? rest k

/-- `Map.prototype.set`: update in place if the key is present (keeping its
insertion position), otherwise append a new entry. -/
def alSet {β : Type} (m : List (JStr × β)) (k : JStr) (v : β) : List (JStr × β) :=
  if (alGet? m k).isSome then m.map (fun p => if p.1 = k then (k, v) else p)
  else m ++ [(k, v)]

/-- `normalizeDatasetKey` from `src/script.js` (lines 93–101): canonicalize
dataset labels to the UI dropdown keys "DA2k" / "SPair", passing every
other value through unchanged (after trimming). -/
def normalizeDatasetKey (s : JStr) : JStr :=
  let v := jsTrim s
  if v = [] then v
  else if v = jstr "DA2k" ∨ v.map jsToLower = jstr "da2k" then jstr "DA2k"
  else if (jstr "DA-2K").isPrefixOf v then jstr "DA2k"
  else if v = jstr "SPair" ∨ v.map jsToLower = jstr "spair" then jstr "SPair"
  else if (jstr "SPair").isPrefixOf v then jstr "SPair"
  else v

/-- `normalizeMarkerStyleKey` from `src/script.js` (lines 118–131):
trim, lowercase, collapse whitespace, look the phrase up in a fixed table
of known variants, and otherwise slugify. -/
def normalizeMarkerStyleKey (s : JStr) : JStr :=
  let raw := jsTrim s
  if raw = [] then raw
  else
    let v := collapseWs (raw.map jsToLower)
    if v = jstr "default" then jstr "default"
    else if v = jstr "color blue" ∨ v = jstr "color_blue" then jstr "color_blue"
    else if v = jstr "marker type square" ∨ v = jstr "marker_square" ∨
        v = jstr "marker type: square" then jstr "marker_square"
    else if v = jstr "radius 3" ∨ v = jstr "radius_3" then jstr "radius_3"
    else if v = jstr "text offset below" ∨ v = jstr "text_offset_below" then
      jstr "text_offset_below"
    else if v = jstr "font scale 0.2" ∨ v = jstr "font_scale_0.2" then
      jstr "font_scale_0.2"
    else slugify v

/-- The result of `parseSimpleCsv`: a header row and data rows. -/
structure CsvTable where
  headers : List JStr
  rows : List (List JStr)
deriving DecidableEq

/-- `parseSimpleCsv` from `src/script.js` (lines 59–64): trim the whole
text, split on `\n`, drop empty lines (`filter(Boolean)`), take the first
remaining line as headers and the rest as rows, splitting each line on
commas and trimming every field. -/
def parseSimpleCsv (csvText : JStr) : CsvTable :=
  let lines := (splitOnChar 10 (jsTrim csvText)).filter (fun l => !l.isEmpty)
  let headers := (splitOnChar 44 (lines.headD [])).map jsTrim
  let rows := (lines.drop 1).map (fun line => (splitOnChar 44 line).map jsTrim)
  ⟨headers, rows⟩

/-- `buildCsvHeaderIndex` from `src/script.js` (lines 72–80): header name →
column index, skipping empty names; a repeated name keeps the last index. -/
def buildCsvHeaderIndex (headers : List JStr) : List (JStr × Nat) :=
  headers.enum.foldl (fun m p => if p.2 = [] then m else alSet m p.2 p.1) []

/-- One validated row of `marker_acc.csv` (the element type produced by the
`parsedRows` stage of `loadMarkerData`). -/
structure MarkerRecord where
  dataset : JStr
  marker_style : JStr
  model : JStr
  accuracy : ℚ
  rank : Int
deriving DecidableEq

/-- The inner `Map` of `byStyleByModel`: model → {accuracy, rank}. -/
abbrev ModelMap := List (JStr × ℚ × Int)

/-- The outer `Map` of `byStyleByModel`: style → model map. -/
abbrev StyleMap := List (JStr × ModelMap)

/-- One iteration of the `datasetRows.forEach` loop filling
`byStyleByModel` (`src/script.js` lines 190–193): ensure the style key
exists, then `set` the model entry in its map (last write wins). -/
def markerStep (m : StyleMap) (r : MarkerRecord) : StyleMap :=
  let m' := if (alGet? m r.marker_style).isSome then m
    else m ++ [(r.marker_style, [])]
  alSet m' r.marker_style
    (alSet ((alGet? m' r.marker_style).getD []) r.model (r.accuracy, r.rank))

/-- The inner `Map.set` of `markerStep`, named for reuse in statements:
insert one record's `{accuracy, rank}` under its model key. -/
def innerIns (inner : ModelMap) (r : MarkerRecord) : ModelMap :=
  alSet inner r.model (r.accuracy, r.rank)

/-- The per-style aligned arrays stored under `data[dataset][style]`. -/
structure StyleSeries where
  accuracies : List ℚ
  ranks : List Int
deriving DecidableEq

/-- `data[dataset]`: the models list plus the per-style series.  The JS
object stores the style entries as sibling properties of `models`; they are
modelled as a separate association list, following the spec's data model. -/
structure MarkerDataset where
  models : List JStr
  styles : List (JStr × StyleSeries)
deriving DecidableEq

/-- The JS local `byStyleByModel` of the `datasets.forEach` loop
(`src/script.js` lines 185–193): the style map seeded with the dataset's
distinct styles and filled row by row. -/
def byStyleByModelOf (datasetRows : List MarkerRecord) : StyleMap :=
  datasetRows.foldl markerStep
    ((dedupFirst (datasetRows.map (fun r => r.marker_style))).map
      (fun s => (s, ([] : ModelMap))))

/-- The JS local `defaultModels` (`src/script.js` lines 195–196). -/
def defaultModelsOf (datasetRows : List MarkerRecord) : List JStr :=
  match alGet? (byStyleByModelOf datasetRows) (jstr "default") with
  | some mm => mm.map (fun p => p.1)
  | none => dedupFirst (datasetRows.map (fun r => r.model))

/-- The JS local `models` (`src/script.js` lines 199–205): candidates kept
only when present in every marker style's map. -/
def modelsOf (datasetRows : List MarkerRecord) : List JStr :=
  (defaultModelsOf datasetRows).filter (fun m =>
    ((byStyleByModelOf datasetRows).map (fun p => p.1)).all (fun style =>
      match alGet? (byStyleByModelOf datasetRows) style with
      | some modelMap => (alGet? modelMap m).isSome
      | none => false))

/-- The body of the `datasets.forEach` loop of `loadMarkerData`
(`src/script.js` lines 184–214), for one dataset's rows. -/
def buildMarkerDataset (datasetRows : List MarkerRecord) : MarkerDataset :=
  ⟨modelsOf datasetRows, (byStyleByModelOf datasetRows).map (fun p =>
    (p.1, ⟨(modelsOf datasetRows).map (fun m => ((alGet? p.2 m).getD (0, 0)).1),
           (modelsOf datasetRows).map (fun m => ((alGet? p.2 m).getD (0, 0)).2)⟩))⟩

/-- The grouping stage of `loadMarkerData` (`src/script.js` lines 180–215):
partition the validated records by dataset and build each `MarkerDataset`. -/
def buildMarkerData (parsedRows : List MarkerRecord) : List (JStr × MarkerDataset) :=
  (dedupFirst (parsedRows.map (fun r => r.dataset))).map
    (fun d => (d, buildMarkerDataset (parsedRows.filter (fun r => r.dataset == d))))

/-- One row of the leaderboard table rendered by `updateVisualization`
(`src/script.js` lines 300–315); `deltaClass` is the CSS class chosen from
the sign of `rankDelta`. -/
structure LbRow where
  model : JStr
  selectedRank : Int
  rankDelta : Int
  deltaClass : JStr
deriving DecidableEq

/-- The data content of the chart and table emitted by
`updateVisualization`: the two bar series, the per-model accuracy deltas
with their colors, and the table rows. -/
structure VisOutput where
  baselineAccuracies : List ℚ
  selectedAccuracies : List ℚ
  deltas : List ℚ
  deltaColors : List JStr
  tableRows : List LbRow
deriving DecidableEq

/-- `updateVisualization` from `src/script.js` (lines 225–316), as a pure
function of the current dataset's data and the selected marker key.
`none` models the `TypeError` raised when the "default" style is absent
(`defaultData.accuracies` on `undefined`). -/
def updateVisualization (datasetData : MarkerDataset) (markerKey : JStr) :
    Option VisOutput :=
  match alGet? datasetData.styles (jstr "default") with
  | none => none
  | some defaultData =>
    let selectedData := (alGet? datasetData.styles markerKey).getD defaultData
    let models := datasetData.models
    let deltas := (List.range models.length).map (fun i =>
      selectedData.accuracies.getD i 0 - defaultData.accuracies.getD i 0)
    let deltaColors := deltas.map (fun d =>
      if 0 < d then jstr "#10b981"
      else if d < 0 then jstr "#ef4444"
      else jstr "#6b7280")
    let tableRows := (List.range models.length).map (fun i =>
      let defaultRank := defaultData.ranks.getD i 0
      let selectedRank := selectedData.ranks.getD i 0
      let delta := defaultRank - selectedRank
      (⟨models.getD i [], selectedRank, delta,
        if 0 < delta then jstr "deltaUp"
        else if delta < 0 then jstr "deltaDown"
        else jstr "deltaZero"⟩ : LbRow))
    some ⟨defaultData.accuracies, selectedData.accuracies, deltas, deltaColors,
      tableRows⟩

/-- One row of `jpeg_rank.csv` as produced by `loadJpegRankData`
(`src/script.js` lines 339–346); `rank = none` models a `NaN` from
`parseInt`. -/
structure JpegRankRecord where
  benchmark : JStr
  model : JStr
  jpeg_quality : JStr
  rank : Option Int
deriving DecidableEq

/-- One step of the `if (!map.has(k)) map.set(k, []); map.get(k).push(r)`
grouping idiom used for `byBenchmark` and `byModel` in
`renderJpegRankChart`: append the row to its key's bucket. -/
def groupStep {α : Type} (key : α → JStr) (m : List (JStr × List α)) (r : α) :
    List (JStr × List α) :=
  if (alGet? m (key r)).isSome then
    m.map (fun p => if p.1 = key r then (p.1, p.2 ++ [r]) else p)
  else m ++ [(key r, [r])]

/-- Group a row list by a key, buckets in first-appearance key order. -/
def groupByKey {α : Type} (key : α → JStr) (rows : List α) :
    List (JStr × List α) :=
  rows.foldl (groupStep key) []

/-- `q.match(/\d+/)`: the first maximal run of ASCII digits, if any. -/
def firstDigitRun : JStr → Option (List Nat)
  | [] => none
  | c :: rest =>
    if 48 ≤ c ∧ c ≤ 57 then
      some (c :: rest.takeWhile (fun d => 48 ≤ d && d ≤ 57))
    else firstDigitRun rest

/-- `parseInt` on a nonempty all-digit string. -/
def digitsToNat (ds : List Nat) : Nat :=
  ds.foldl (fun acc d => acc * 10 + (d - 48)) 0

/-- `qualitySortKey` from `src/script.js` (lines 376–380). -/
def qualitySortKey (q : JStr) : Int :=
  if q = jstr "default" then 1000
  else match firstDigitRun q with
    | some ds => (digitsToNat ds : Int)
    | none => 0

/-- The sort key of the `modelsSorted` comparator (`src/script.js` lines
395–399): the model's "default"-quality rank, `9999` when the model has no
default record, `none` when that record's rank is `NaN`. -/
def jpegDefaultSortRank (byModel : List (JStr × List JpegRankRecord))
    (a : JStr) : Option Int :=
  match ((alGet? byModel a).getD []).find?
      (fun x => x.jpeg_quality == jstr "default") with
  | some r => r.rank
  | none => some 9999

/-- The comparator `aDefault - bDefault` as a sort order; a `NaN`
comparison counts as equal (`SortCompare` maps `NaN` to `+0`). -/
def jpegModelLe (byModel : List (JStr × List JpegRankRecord))
    (a b : JStr) : Bool :=
  match jpegDefaultSortRank byModel a, jpegDefaultSortRank byModel b with
  | some x, some y => decide (x ≤ y)
  | _, _ => true

/-- Sort order of the per-model `points` (`src/script.js` lines 412–414). -/
def jpegQualityLe (a b : JpegRankRecord) : Bool :=
  decide (qualitySortKey a.jpeg_quality ≤ qualitySortKey b.jpeg_quality)

/-- The range segment pushed for one model (`segmentX`/`segmentY` receive
`minRank, maxRank, null` and `model, model, null`). -/
structure JpegSegment where
  model : JStr
  minRank : Int
  maxRank : Int
deriving DecidableEq

/-- The default-rank marker pushed for one model (`dotX`/`dotY`). -/
structure JpegDot where
  model : JStr
  rank : Int
deriving DecidableEq

/-- The data content of one benchmark panel of `renderJpegRankChart`. -/
structure JpegPanel where
  segments : List JpegSegment
  dots : List JpegDot
deriving DecidableEq

/-- The JS local `points` (`src/script.js` lines 412–414): the model's
records sorted by quality key. -/
def jpegModelPoints (byModel : List (JStr × List JpegRankRecord))
    (model : JStr) : List JpegRankRecord :=
  ((alGet? byModel model).getD []).mergeSort jpegQualityLe

/-- The body of the `modelsSorted.forEach` loop of `renderJpegRankChart`
(`src/script.js` lines 411–438): sort the model's points by quality, keep
the finite ranks (`ranks`), and emit a `[min, max]` segment plus a marker
at the "default" rank when that rank exists and is finite. -/
def jpegModelEmit (byModel : List (JStr × List JpegRankRecord))
    (model : JStr) : List JpegSegment × List JpegDot :=
  match (jpegModelPoints byModel model).filterMap (fun r => r.rank) with
  | [] => ([], [])
  | h :: t =>
    ([⟨model, t.foldl min h, t.foldl max h⟩],
     match ((jpegModelPoints byModel model).find?
         (fun p => p.jpeg_quality == jstr "default")).bind (fun p => p.rank) with
     | some d => [⟨model, d⟩]
     | none => [])

/-- The JS local `byModel` of one benchmark panel (`src/script.js` lines
386–393): `byBenchmark.get(bench.key) || []` grouped by model. -/
def jpegByModel (rows : List JpegRankRecord) (benchKey : JStr) :
    List (JStr × List JpegRankRecord) :=
  groupByKey (fun r => r.model)
    ((alGet? (groupByKey (fun r => r.benchmark) rows) benchKey).getD [])

/-- The JS local `modelsSorted` (`src/script.js` lines 395–399). -/
def jpegModelsSorted (rows : List JpegRankRecord) (benchKey : JStr) :
    List JStr :=
  ((jpegByModel rows benchKey).map (fun p => p.1)).mergeSort
    (jpegModelLe (jpegByModel rows benchKey))

/-- The per-benchmark computation of `renderJpegRankChart`
(`src/script.js` lines 385–438): group the rows of one benchmark by model,
sort the models by default rank, and concatenate each model's emissions
(the `forEach` pushes, as a fold). -/
def jpegPanel (rows : List JpegRankRecord) (benchKey : JStr) : JpegPanel :=
  ⟨((jpegModelsSorted rows benchKey).foldl (fun acc m =>
      (acc.1 ++ (jpegModelEmit (jpegByModel rows benchKey) m).1,
       acc.2 ++ (jpegModelEmit (jpegByModel rows benchKey) m).2))
    (([] : List JpegSegment), ([] : List JpegDot))).1,
   ((jpegModelsSorted rows benchKey).foldl (fun acc m =>
      (acc.1 ++ (jpegModelEmit (jpegByModel rows benchKey) m).1,
       acc.2 ++ (jpegModelEmit (jpegByModel rows benchKey) m).2))
    (([] : List JpegSegment), ([] : List JpegDot))).2⟩

/-- `renderJpegRankChart` over its fixed benchmark list (`src/script.js`
lines 365–368): one panel per benchmark key; unknown benchmarks in the
data are never looked up, hence silently ignored. -/
def renderJpegRankChart (rows : List JpegRankRecord) : List (JStr × JpegPanel) :=
  [(jstr "BLINK_RD", jpegPanel rows (jstr "BLINK_RD")),
   (jstr "MME", jpegPanel rows (jstr "MME"))]

/-- `missing.join(", ")`. -/
def joinCommaSpace : List JStr → JStr
  | [] => []
  | [x] => x
  | x :: rest => x ++ jstr ", " ++ joinCommaSpace rest

/-- The §8 JPEG scenario of claim C7: model "M" with ranks
`{default: 3, jpeg70: 5, jpeg90: 2}`. -/
def jpegScenarioC7 : List JpegRankRecord :=
  [⟨jstr "BLINK_RD", jstr "M", jstr "default", some 3⟩,
   ⟨jstr "BLINK_RD", jstr "M", jstr "jpeg70", some 5⟩,
   ⟨jstr "BLINK_RD", jstr "M", jstr "jpeg90", some 2⟩]

/-- The CSV-to-data stage of `loadMarkerData` (`src/script.js` lines
148–218), from the fetched text to either a thrown error (the missing
required-columns check) or the built dataset map.  The numeric parsers
`parseFloat` / `parseInt` are parameters `pFloat` / `pInt`; `none` models a
`NaN` result, which the row-validation filter rejects. -/
def markerHeaderIdx? (csvText : JStr) (name : JStr) : Option Nat :=
  alGet? (buildCsvHeaderIndex (parseSimpleCsv csvText).headers) name

/-- The `missing` list of `loadMarkerData` (`src/script.js` lines 157–162). -/
def markerMissingColumns (csvText : JStr) : List JStr :=
  (if markerHeaderIdx? csvText (jstr "dataset") = none then [jstr "dataset"] else []) ++
  (if markerHeaderIdx? csvText (jstr "model") = none then [jstr "model"] else []) ++
  (if markerHeaderIdx? csvText (jstr "marker_style") = none then [jstr "marker_style"]
   else []) ++
  (if markerHeaderIdx? csvText (jstr "accuracy") = none then [jstr "accuracy"] else []) ++
  (if markerHeaderIdx? csvText (jstr "rank") = none then [jstr "rank"] else [])

/-- The `parsedRows` stage of `loadMarkerData` (`src/script.js` lines
167–178): keep rows at least as long as the header row, normalize and
parse the five fields, and drop any row failing validation. -/
def markerParsedRows (pFloat : JStr → Option ℚ) (pInt : JStr → Option Int)
    (csvText : JStr) : List MarkerRecord :=
  (((parseSimpleCsv csvText).rows.filter
      (fun values => (parseSimpleCsv csvText).headers.length ≤ values.length)).filterMap
    (fun values =>
      let dataset := normalizeDatasetKey
        (values.getD ((markerHeaderIdx? csvText (jstr "dataset")).getD 0) [])
      let marker_style := normalizeMarkerStyleKey
        (values.getD ((markerHeaderIdx? csvText (jstr "marker_style")).getD 0) [])
      let model := jsTrim
        (values.getD ((markerHeaderIdx? csvText (jstr "model")).getD 0) [])
      match pFloat (values.getD ((markerHeaderIdx? csvText (jstr "accuracy")).getD 0) []),
          pInt (values.getD ((markerHeaderIdx? csvText (jstr "rank")).getD 0) []) with
      | some accuracy, some rank =>
        if dataset ≠ [] ∧ marker_style ≠ [] ∧ model ≠ [] then
          some ⟨dataset, marker_style, model, accuracy, rank⟩
        else none
      | _, _ => none))

def loadMarkerDataResult (pFloat : JStr → Option ℚ) (pInt : JStr → Option Int)
    (csvText : JStr) : Except JStr (List (JStr × MarkerDataset)) :=
  if markerMissingColumns csvText ≠ [] then
    Except.error (jstr "marker_acc.csv is missing required columns: " ++
      joinCommaSpace (markerMissingColumns csvText))
  else Except.ok (buildMarkerData (markerParsedRows pFloat pInt csvText))

/-- The observable outcome of `loadMarkerData`: the `catch` block turns a
thrown error into a `null` return, leaving the process-wide `MARKER_DATA`
unset (it is assigned only on success, line 217). -/
def loadMarkerData (pFloat : JStr → Option ℚ) (pInt : JStr → Option Int)
    (csvText : JStr) : Option (List (JStr × MarkerDataset)) :=
  (loadMarkerDataResult pFloat pInt csvText).toOption

/-! Spec-side definitions: these follow the specification's words, to be
compared with the source-derived definitions above. -/

/-- The spec's description of the CSV reader taken literally, reading
"blank line" as "empty line": split the text on newlines (without first
trimming the whole text), drop empty lines, split remaining lines on
commas, trim each field. -/
def csvReadClaimEmptyBlank (csvText : JStr) : CsvTable :=
  let lines := (splitOnChar 10 csvText).filter (fun l => !l.isEmpty)
  ⟨(splitOnChar 44 (lines.headD [])).map jsTrim,
   (lines.drop 1).map (fun line => (splitOnChar 44 line).map jsTrim)⟩

/-- The spec's description of the CSV reader taken literally, reading
"blank line" as "whitespace-only line". -/
def csvReadClaimWsBlank (csvText : JStr) : CsvTable :=
  let lines := (splitOnChar 10 csvText).filter (fun l => !(l.all jsIsWs))
  ⟨(splitOnChar 44 (lines.headD [])).map jsTrim,
   (lines.drop 1).map (fun line => (splitOnChar 44 line).map jsTrim)⟩

/-- The line list `parseSimpleCsv` actually works on: the whole text is
trimmed first, then split on newlines, then empty lines are dropped. -/
def csvLines (t : JStr) : List JStr :=
  (splitOnChar 10 (jsTrim t)).filter (fun l => !l.isEmpty)

/-- The lines that become data rows: all but the first remaining line. -/
def csvDataLines (t : JStr) : List JStr := (csvLines t).drop 1

/-- Spec-side candidate model ordering for one dataset's rows: the
"default" style's models in first-appearance order, or, if no "default"
style exists, all distinct models in first-appearance order. -/
def specCandidateModels (rows : List MarkerRecord) : List JStr :=
  if rows.any (fun r => r.marker_style == jstr "default") then
    dedupFirst ((rows.filter (fun r => r.marker_style == jstr "default")).map
      (fun r => r.model))
  else dedupFirst (rows.map (fun r => r.model))

/-- Spec-side models list: the candidate ordering filtered to the models
present in every style's mapping (a model is in a style's mapping exactly
when some row carries that style and model). -/
def specModels (rows : List MarkerRecord) : List JStr :=
  (specCandidateModels rows).filter (fun m =>
    (dedupFirst (rows.map (fun r => r.marker_style))).all (fun s =>
      rows.any (fun r => r.marker_style == s && r.model == m)))

/-- Spec-side value of model `m` under style `s`: the last matching row
wins (the builder's per-style maps are last-write-wins), i.e. the first
match in the reversed row list. -/
def specLookup (rows : List MarkerRecord) (s m : JStr) : Option (ℚ × Int) :=
  (rows.reverse.find? (fun r => r.marker_style == s && r.model == m)).map
    (fun r => (r.accuracy, r.rank))

/-- The §8 marker scenario of claim C1: dataset "DA2k", styles
`default`/`color_blue`, models A and B with B missing from `color_blue`. -/
def markerScenarioC1 : List MarkerRecord :=
  [⟨jstr "DA2k", jstr "default", jstr "A", 80, 1⟩,
   ⟨jstr "DA2k", jstr "default", jstr "B", 70, 2⟩,
   ⟨jstr "DA2k", jstr "color_blue", jstr "A", 75, 1⟩]

/-- The §8 scenario of claim C3: one dataset, styles `default`/`x`,
models M1 and M2. -/
def markerScenarioC3 : List MarkerRecord :=
  [⟨jstr "style_a", jstr "default", jstr "M1", 80, 2⟩,
   ⟨jstr "style_a", jstr "default", jstr "M2", 90, 1⟩,
   ⟨jstr "style_a", jstr "x", jstr "M1", 82, 1⟩,
   ⟨jstr "style_a", jstr "x", jstr "M2", 85, 2⟩]

/-- Spec-side finite ranks of model `m` within one benchmark's rows, in
row order. -/
def jpegModelRanks (data : List JpegRankRecord) (m : JStr) : List Int :=
  (data.filter (fun r => r.model == m)).filterMap (fun r => r.rank)

/-- The rows of one benchmark, as the claim describes the grouping. -/
def jpegBenchRows (rows : List JpegRankRecord) (bench : JStr) :
    List JpegRankRecord :=
  rows.filter (fun r => r.benchmark == bench)

/-! Basic lemmas about the string primitives. -/

theorem splitOnChar_ne_nil (sep : Nat) (l : JStr) : splitOnChar sep l ≠ [] := by
  cases l with
  | nil => simp [splitOnChar]
  | cons c rest =>
    unfold splitOnChar
    cases h : splitOnChar sep rest with
    | nil => simp
    | cons hh tt =>
      by_cases hc : c = sep <;> simp [hc]

theorem length_splitOnChar (sep : Nat) (l : JStr) :
    (splitOnChar sep l).length = l.count sep + 1 := by
  induction l with
  | nil => simp [splitOnChar]
  | cons c rest ih =>
    unfold splitOnChar
    cases h : splitOnChar sep rest with
    | nil => exact absurd h (splitOnChar_ne_nil sep rest)
    | cons hh tt =>
      rw [h] at ih
      by_cases hc : c = sep
      · simp only [hc, if_pos rfl, List.length_cons, List.count_cons, beq_self_eq_true,
          if_pos] at ih ⊢
        simp at ih ⊢
        omega
      · simp only [if_neg hc, List.length_cons, List.count_cons] at ih ⊢
        have : (c == sep) = false := by simp [hc]
        simp [this] at ih ⊢
        omega

theorem dropWhile_twice {α : Type} (p : α → Bool) (l : List α) :
    (l.dropWhile p).dropWhile p = l.dropWhile p := by
  cases h : l.dropWhile p with
  | nil => simp
  | cons a t =>
    have ha := List.head?_dropWhile_not p l
    rw [h] at ha
    simp only [List.head?_cons] at ha
    exact List.dropWhile_cons_of_neg (by simp [ha])

theorem dropWhile_of_forall_neg {α : Type} (p : α → Bool) (l : List α)
    (h : ∀ c ∈ l, p c = false) : l.dropWhile p = l := by
  cases l with
  | nil => simp
  | cons a t =>
    exact List.dropWhile_cons_of_neg (by simp [h a (by simp)])

theorem dropWhile_reverse_dropWhile {α : Type} (p : α → Bool) (l : List α) :
    (((l.dropWhile p).reverse.dropWhile p).reverse).dropWhile p
      = ((l.dropWhile p).reverse.dropWhile p).reverse := by
  cases hBr : ((l.dropWhile p).reverse.dropWhile p).reverse with
  | nil => simp
  | cons a t =>
    have hpre : ((l.dropWhile p).reverse.dropWhile p).reverse <+: l.dropWhile p := by
      have hsuf : (l.dropWhile p).reverse.dropWhile p <:+ (l.dropWhile p).reverse :=
        List.dropWhile_suffix p
      simpa using hsuf.reverse
    rw [hBr] at hpre
    obtain ⟨tl, htl⟩ := hpre
    have ha := List.head?_dropWhile_not p l
    rw [← htl] at ha
    simp only [List.cons_append, List.head?_cons] at ha
    exact List.dropWhile_cons_of_neg (by simp [ha])

theorem jsTrim_idem (l : JStr) : jsTrim (jsTrim l) = jsTrim l := by
  show ((((jsTrim l).dropWhile jsIsWs).reverse).dropWhile jsIsWs).reverse = jsTrim l
  have h1 : (jsTrim l).dropWhile jsIsWs = jsTrim l :=
    dropWhile_reverse_dropWhile jsIsWs l
  rw [h1]
  show ((((l.dropWhile jsIsWs).reverse.dropWhile jsIsWs).reverse).reverse.dropWhile
    jsIsWs).reverse = jsTrim l
  rw [List.reverse_reverse, dropWhile_twice]
  rfl

theorem jsTrim_of_no_ws (l : JStr) (h : ∀ c ∈ l, jsIsWs c = false) :
    jsTrim l = l := by
  unfold jsTrim
  rw [dropWhile_of_forall_neg jsIsWs l h]
  rw [dropWhile_of_forall_neg jsIsWs l.reverse (fun c hc => h c (by simpa using hc))]
  exact List.reverse_reverse l

/-- C5: `normalizeDatasetKey` is idempotent: for every string `x`,
`normalizeDatasetKey (normalizeDatasetKey x) = normalizeDatasetKey x`. -/
theorem normalizeDatasetKey_idem (x : JStr) :
    normalizeDatasetKey (normalizeDatasetKey x) = normalizeDatasetKey x := by
  by_cases h1 : jsTrim x = []
  · have hx : normalizeDatasetKey x = [] := by
      unfold normalizeDatasetKey
      simp [h1]
    rw [hx]
    decide
  by_cases h2 : jsTrim x = jstr "DA2k" ∨ (jsTrim x).map jsToLower = jstr "da2k"
  · have hx : normalizeDatasetKey x = jstr "DA2k" := by
      unfold normalizeDatasetKey
      simp only [if_neg h1, if_pos h2]
    rw [hx]
    decide
  by_cases h3 : (jstr "DA-2K").isPrefixOf (jsTrim x)
  · have hx : normalizeDatasetKey x = jstr "DA2k" := by
      unfold normalizeDatasetKey
      simp only [if_neg h1, if_neg h2, if_pos h3]
    rw [hx]
    decide
  by_cases h4 : jsTrim x = jstr "SPair" ∨ (jsTrim x).map jsToLower = jstr "spair"
  · have hx : normalizeDatasetKey x = jstr "SPair" := by
      unfold normalizeDatasetKey
      simp only [if_neg h1, if_neg h2, if_neg h3, if_pos h4]
    rw [hx]
    decide
  by_cases h5 : (jstr "SPair").isPrefixOf (jsTrim x)
  · have hx : normalizeDatasetKey x = jstr "SPair" := by
      unfold normalizeDatasetKey
      simp only [if_neg h1, if_neg h2, if_neg h3, if_neg h4, if_pos h5]
    rw [hx]
    decide
  · have hx : normalizeDatasetKey x = jsTrim x := by
      unfold normalizeDatasetKey
      simp only [if_neg h1, if_neg h2, if_neg h3, if_neg h4, if_neg h5]
    rw [hx]
    unfold normalizeDatasetKey
    rw [jsTrim_idem]
    simp only [if_neg h1, if_neg h2, if_neg h3, if_neg h4, if_neg h5]

/-- C4 counterexample: `normalizeMarkerStyleKey "unknown style!!"` is not
`"unknown_style"` — the trailing `!!` run becomes a trailing underscore. -/
theorem normalizeMarkerStyleKey_unknown_style_counterexample :
    ¬ (normalizeMarkerStyleKey (jstr "Color Blue") = jstr "color_blue" ∧
       normalizeMarkerStyleKey (jstr "unknown style!!") = jstr "unknown_style") := by
  decide

/-- C4 (amended): `normalizeMarkerStyleKey "Color Blue" = "color_blue"` and
`normalizeMarkerStyleKey "unknown style!!" = "unknown_style_"` (the final
non-word run `!!` is replaced by an underscore, not stripped). -/
theorem normalizeMarkerStyleKey_examples :
    normalizeMarkerStyleKey (jstr "Color Blue") = jstr "color_blue" ∧
    normalizeMarkerStyleKey (jstr "unknown style!!") = jstr "unknown_style_" := by
  decide

theorem mem_slugAux_wordDot {c : Nat} : ∀ {b : Bool} {l : JStr},
    c ∈ slugAux b l → jsIsWordDot c = true := by
  intro b l
  induction l generalizing b with
  | nil => intro h; simp [slugAux] at h
  | cons a t ih =>
    intro h
    unfold slugAux at h
    by_cases ha : jsIsWordDot a
    · rw [if_pos ha] at h
      rcases List.mem_cons.mp h with rfl | h2
      · exact ha
      · exact ih h2
    · rw [if_neg ha] at h
      cases b with
      | true => exact ih (by simpa using h)
      | false =>
        rcases List.mem_cons.mp (by simpa using h) with rfl | h2
        · decide
        · exact ih h2

theorem mem_slugAux_orig {c : Nat} : ∀ {b : Bool} {l : JStr},
    c ∈ slugAux b l → c = 95 ∨ c ∈ l := by
  intro b l
  induction l generalizing b with
  | nil => intro h; simp [slugAux] at h
  | cons a t ih =>
    intro h
    unfold slugAux at h
    by_cases ha : jsIsWordDot a
    · rw [if_pos ha] at h
      rcases List.mem_cons.mp h with rfl | h2
      · exact Or.inr (by simp)
      · rcases ih h2 with h95 | ht
        · exact Or.inl h95
        · exact Or.inr (by simp [ht])
    · rw [if_neg ha] at h
      cases b with
      | true =>
        rcases ih (by simpa using h) with h95 | ht
        · exact Or.inl h95
        · exact Or.inr (by simp [ht])
      | false =>
        rcases List.mem_cons.mp (by simpa using h) with rfl | h2
        · exact Or.inl rfl
        · rcases ih h2 with h95 | ht
          · exact Or.inl h95
          · exact Or.inr (by simp [ht])

theorem mem_collapseWsAux {c : Nat} : ∀ {b : Bool} {l : JStr},
    c ∈ collapseWsAux b l → c = 32 ∨ c ∈ l := by
  intro b l
  induction l generalizing b with
  | nil => intro h; simp [collapseWsAux] at h
  | cons a t ih =>
    intro h
    unfold collapseWsAux at h
    by_cases ha : jsIsWs a
    · rw [if_pos ha] at h
      cases b with
      | true =>
        rcases ih (by simpa using h) with h32 | ht
        · exact Or.inl h32
        · exact Or.inr (by simp [ht])
      | false =>
        rcases List.mem_cons.mp (by simpa using h) with rfl | h2
        · exact Or.inl rfl
        · rcases ih h2 with h32 | ht
          · exact Or.inl h32
          · exact Or.inr (by simp [ht])
    · rw [if_neg ha] at h
      rcases List.mem_cons.mp h with rfl | h2
      · exact Or.inr (by simp)
      · rcases ih h2 with h32 | ht
        · exact Or.inl h32
        · exact Or.inr (by simp [ht])

theorem wordDot_not_ws {c : Nat} (h : jsIsWordDot c = true) : jsIsWs c = false := by
  have h' : (((48 ≤ c ∧ c ≤ 57 ∨ 65 ≤ c ∧ c ≤ 90) ∨ 97 ≤ c ∧ c ≤ 122) ∨ c = 95) ∨
      c = 46 := by
    simpa [jsIsWordDot, Bool.or_eq_true, Bool.and_eq_true, decide_eq_true_eq] using h
  rw [Bool.eq_false_iff]
  intro hw
  simp only [jsIsWs, Bool.or_eq_true, Bool.and_eq_true, decide_eq_true_eq] at hw
  omega

theorem jsToLower_idem (c : Nat) : jsToLower (jsToLower c) = jsToLower c := by
  unfold jsToLower
  split_ifs <;> omega

theorem list_map_fix {f : Nat → Nat} : ∀ {l : List Nat},
    (∀ c ∈ l, f c = c) → l.map f = l := by
  intro l h
  induction l with
  | nil => rfl
  | cons a t ih =>
    simp only [List.map_cons]
    rw [h a (by simp), ih (fun c hc => h c (by simp [hc]))]

theorem collapseWsAux_of_no_ws (b : Bool) (l : JStr)
    (h : ∀ c ∈ l, jsIsWs c = false) : collapseWsAux b l = l := by
  induction l generalizing b with
  | nil => rfl
  | cons a t ih =>
    unfold collapseWsAux
    rw [if_neg (by simp [h a (by simp)])]
    rw [ih false (fun c hc => h c (by simp [hc]))]

theorem slugAux_false_of_wordDot (l : JStr)
    (h : ∀ c ∈ l, jsIsWordDot c = true) : slugAux false l = l := by
  induction l with
  | nil => rfl
  | cons a t ih =>
    unfold slugAux
    rw [if_pos (h a (by simp))]
    rw [ih (fun c hc => h c (by simp [hc]))]

theorem slugAux_false_ne_nil {l : JStr} (h : l ≠ []) : slugAux false l ≠ [] := by
  cases l with
  | nil => exact absurd rfl h
  | cons a t =>
    unfold slugAux
    by_cases ha : jsIsWordDot a
    · rw [if_pos ha]; simp
    · rw [if_neg ha]; simp

theorem collapseWs_ne_nil {l : JStr} (h : l ≠ []) : collapseWs l ≠ [] := by
  cases l with
  | nil => exact absurd rfl h
  | cons a t =>
    unfold collapseWs collapseWsAux
    by_cases ha : jsIsWs a
    · rw [if_pos ha]; simp
    · rw [if_neg ha]; simp

theorem normalizeMarkerStyleKey_fix_of (s : JStr) (hne : s ≠ [])
    (hwd : ∀ c ∈ s, jsIsWordDot c = true) (hlow : s.map jsToLower = s) :
    normalizeMarkerStyleKey s = s := by
  have hnws : ∀ c ∈ s, jsIsWs c = false := fun c hc => wordDot_not_ws (hwd c hc)
  have htrim : jsTrim s = s := jsTrim_of_no_ws s hnws
  have hcoll : collapseWs s = s := collapseWsAux_of_no_ws false s hnws
  unfold normalizeMarkerStyleKey
  simp only [htrim, if_neg hne, hlow, hcoll]
  split_ifs with c1 c2 c3 c4 c5 c6
  · exact c1.symm
  · rcases c2 with c2 | c2
    · exact absurd (hnws 32 (by rw [c2]; decide)) (by decide)
    · exact c2.symm
  · rcases c3 with c3 | c3 | c3
    · exact absurd (hnws 32 (by rw [c3]; decide)) (by decide)
    · exact c3.symm
    · exact absurd (hnws 32 (by rw [c3]; decide)) (by decide)
  · rcases c4 with c4 | c4
    · exact absurd (hnws 32 (by rw [c4]; decide)) (by decide)
    · exact c4.symm
  · rcases c5 with c5 | c5
    · exact absurd (hnws 32 (by rw [c5]; decide)) (by decide)
    · exact c5.symm
  · rcases c6 with c6 | c6
    · exact absurd (hnws 32 (by rw [c6]; decide)) (by decide)
    · exact c6.symm
  · exact slugAux_false_of_wordDot s hwd

/-- C10: `normalizeMarkerStyleKey` is idempotent: every output (a canonical
table key or a slug of lowercase word characters, dots and underscores) is
a fixed point of the function. -/
theorem normalizeMarkerStyleKey_idem (x : JStr) :
    normalizeMarkerStyleKey (normalizeMarkerStyleKey x) = normalizeMarkerStyleKey x := by
  by_cases h0 : jsTrim x = []
  · have hx : normalizeMarkerStyleKey x = [] := by
      unfold normalizeMarkerStyleKey
      simp [h0]
    rw [hx]
    decide
  by_cases hd : collapseWs ((jsTrim x).map jsToLower) = jstr "default"
  · have hx : normalizeMarkerStyleKey x = jstr "default" := by
      unfold normalizeMarkerStyleKey
      simp only [if_neg h0, if_pos hd]
    rw [hx]
    decide
  by_cases hc : collapseWs ((jsTrim x).map jsToLower) = jstr "color blue" ∨
      collapseWs ((jsTrim x).map jsToLower) = jstr "color_blue"
  · have hx : normalizeMarkerStyleKey x = jstr "color_blue" := by
      unfold normalizeMarkerStyleKey
      simp only [if_neg h0, if_neg hd, if_pos hc]
    rw [hx]
    decide
  by_cases hm : collapseWs ((jsTrim x).map jsToLower) = jstr "marker type square" ∨
      collapseWs ((jsTrim x).map jsToLower) = jstr "marker_square" ∨
      collapseWs ((jsTrim x).map jsToLower) = jstr "marker type: square"
  · have hx : normalizeMarkerStyleKey x = jstr "marker_square" := by
      unfold normalizeMarkerStyleKey
      simp only [if_neg h0, if_neg hd, if_neg hc, if_pos hm]
    rw [hx]
    decide
  by_cases hr : collapseWs ((jsTrim x).map jsToLower) = jstr "radius 3" ∨
      collapseWs ((jsTrim x).map jsToLower) = jstr "radius_3"
  · have hx : normalizeMarkerStyleKey x = jstr "radius_3" := by
      unfold normalizeMarkerStyleKey
      simp only [if_neg h0, if_neg hd, if_neg hc, if_neg hm, if_pos hr]
    rw [hx]
    decide
  by_cases ht : collapseWs ((jsTrim x).map jsToLower) = jstr "text offset below" ∨
      collapseWs ((jsTrim x).map jsToLower) = jstr "text_offset_below"
  · have hx : normalizeMarkerStyleKey x = jstr "text_offset_below" := by
      unfold normalizeMarkerStyleKey
      simp only [if_neg h0, if_neg hd, if_neg hc, if_neg hm, if_neg hr, if_pos ht]
    rw [hx]
    decide
  by_cases hf : collapseWs ((jsTrim x).map jsToLower) = jstr "font scale 0.2" ∨
      collapseWs ((jsTrim x).map jsToLower) = jstr "font_scale_0.2"
  · have hx : normalizeMarkerStyleKey x = jstr "font_scale_0.2" := by
      unfold normalizeMarkerStyleKey
      simp only [if_neg h0, if_neg hd, if_neg hc, if_neg hm, if_neg hr, if_neg ht,
        if_pos hf]
    rw [hx]
    decide
  · have hx : normalizeMarkerStyleKey x =
        slugify (collapseWs ((jsTrim x).map jsToLower)) := by
      unfold normalizeMarkerStyleKey
      simp only [if_neg h0, if_neg hd, if_neg hc, if_neg hm, if_neg hr, if_neg ht,
        if_neg hf]
    rw [hx]
    apply normalizeMarkerStyleKey_fix_of
    · exact slugAux_false_ne_nil (collapseWs_ne_nil (by simpa using h0))
    · exact fun c hc => mem_slugAux_wordDot hc
    · apply list_map_fix
      intro c hc
      rcases mem_slugAux_orig hc with rfl | hcv
      · decide
      · rcases mem_collapseWsAux hcv with rfl | hcm
        · decide
        · obtain ⟨d, hd', rfl⟩ := List.mem_map.mp hcm
          exact jsToLower_idem d

/-- C6 counterexample: `parseSimpleCsv` first trims the whole text, which
the claim's description ("splits the text on newlines, drops blank lines")
omits; the two literal readings of "blank line" each disagree with the
code on a concrete input. -/
theorem parseSimpleCsv_claim_counterexample :
    ¬ (parseSimpleCsv (jstr "a\n ") = csvReadClaimEmptyBlank (jstr "a\n ")) ∧
    ¬ (parseSimpleCsv (jstr "h\n \nb") = csvReadClaimWsBlank (jstr "h\n \nb")) := by
  decide

/-- C6 (amended): `parseSimpleCsv` trims the whole text, splits it on
newlines, drops empty lines, takes the first remaining line (split on
commas, fields trimmed) as headers; each data row is its line split on
commas with fields trimmed, so its length is that line's comma count plus
one — independent of the header length, never padded or truncated. -/
theorem parseSimpleCsv_amended (t : JStr) :
    (parseSimpleCsv t).headers = (splitOnChar 44 ((csvLines t).headD [])).map jsTrim ∧
    (parseSimpleCsv t).rows.length = (csvDataLines t).length ∧
    ∀ i, i < (parseSimpleCsv t).rows.length →
      (parseSimpleCsv t).rows.getD i [] =
        (splitOnChar 44 ((csvDataLines t).getD i [])).map jsTrim ∧
      ((parseSimpleCsv t).rows.getD i []).length =
        ((csvDataLines t).getD i []).count 44 + 1 := by
  have hrows : (parseSimpleCsv t).rows =
      (csvDataLines t).map (fun line => (splitOnChar 44 line).map jsTrim) := rfl
  refine ⟨rfl, ?_, ?_⟩
  · rw [hrows]
    exact List.length_map _ _
  · intro i hi
    rw [hrows] at hi
    have hi' : i < (csvDataLines t).length := by simpa using hi
    constructor
    · rw [hrows]
      simp [List.getD_eq_getElem?_getD, List.getElem?_map, List.getElem?_eq_getElem hi']
    · rw [hrows]
      simp [List.getD_eq_getElem?_getD, List.getElem?_map, List.getElem?_eq_getElem hi',
        length_splitOnChar]

theorem parseSimpleCsv_amended_witness :
    (parseSimpleCsv (jstr "a,b\nc,d,e")).rows.getD 0 [] =
      (splitOnChar 44 ((csvDataLines (jstr "a,b\nc,d,e")).getD 0 [])).map jsTrim ∧
    ((parseSimpleCsv (jstr "a,b\nc,d,e")).rows.getD 0 []).length =
      ((csvDataLines (jstr "a,b\nc,d,e")).getD 0 []).count 44 + 1 :=
  (parseSimpleCsv_amended (jstr "a,b\nc,d,e")).2.2 0 (by decide)

/-! Lemmas about the association-list `Map` model. -/

theorem alGet?_append_ne {β : Type} (m : List (JStr × β)) (k k' : JStr) (v : β)
    (h : k' ≠ k) : alGet? (m ++ [(k, v)]) k' = alGet? m k' := by
  induction m with
  | nil =>
    simp only [List.nil_append, alGet?]
    rw [if_neg (fun he => h he.symm)]
  | cons p rest ih =>
    simp only [List.cons_append, alGet?]
    by_cases hp : p.1 = k'
    · simp [hp]
    · simp [hp, ih]

theorem alGet?_append_self {β : Type} (m : List (JStr × β)) (k : JStr) (v : β)
    (h : alGet? m k = none) : alGet? (m ++ [(k, v)]) k = some v := by
  induction m with
  | nil => simp [alGet?]
  | cons p rest ih =>
    simp only [alGet?] at h
    by_cases hp : p.1 = k
    · rw [if_pos hp] at h
      exact absurd h (by simp)
    · rw [if_neg hp] at h
      simp only [List.cons_append, alGet?, if_neg hp]
      exact ih h

theorem alGet?_mapSet_ne {β : Type} (m : List (JStr × β)) (k k' : JStr) (v : β)
    (h : k' ≠ k) :
    alGet? (m.map (fun p => if p.1 = k then (k, v) else p)) k' = alGet? m k' := by
  induction m with
  | nil => rfl
  | cons p rest ih =>
    simp only [List.map_cons, alGet?]
    by_cases hp : p.1 = k
    · rw [if_pos hp]
      rw [if_neg (show ¬((k, v).1 = k') from fun he => h he.symm),
        if_neg (show ¬(p.1 = k') from by rw [hp]; exact fun he => h he.symm)]
      exact ih
    · rw [if_neg hp]
      by_cases hp' : p.1 = k'
      · rw [if_pos hp', if_pos hp']
      · rw [if_neg hp', if_neg hp']
        exact ih

theorem alGet?_mapSet_self {β : Type} (m : List (JStr × β)) (k : JStr) (v : β)
    (h : (alGet? m k).isSome) :
    alGet? (m.map (fun p => if p.1 = k then (k, v) else p)) k = some v := by
  induction m with
  | nil => simp [alGet?] at h
  | cons p rest ih =>
    simp only [alGet?] at h
    simp only [List.map_cons, alGet?]
    by_cases hp : p.1 = k
    · rw [if_pos hp]
      simp [alGet?]
    · rw [if_neg hp]
      simp only [alGet?, if_neg hp]
      rw [if_neg hp] at h
      exact ih h

theorem alGet?_alSet_self {β : Type} (m : List (JStr × β)) (k : JStr) (v : β) :
    alGet? (alSet m k v) k = some v := by
  unfold alSet
  by_cases h : (alGet? m k).isSome
  · rw [if_pos h]
    exact alGet?_mapSet_self m k v h
  · rw [if_neg h]
    exact alGet?_append_self m k v (by rwa [Option.not_isSome_iff_eq_none] at h)

theorem alGet?_alSet_ne {β : Type} (m : List (JStr × β)) (k k' : JStr) (v : β)
    (h : k' ≠ k) : alGet? (alSet m k v) k' = alGet? m k' := by
  unfold alSet
  by_cases hs : (alGet? m k).isSome
  · rw [if_pos hs]
    exact alGet?_mapSet_ne m k k' v h
  · rw [if_neg hs]
    exact alGet?_append_ne m k k' v h

theorem keys_mapSet {β : Type} (m : List (JStr × β)) (k : JStr) (v : β) :
    (m.map (fun p => if p.1 = k then (k, v) else p)).map (fun p => p.1) =
      m.map (fun p => p.1) := by
  induction m with
  | nil => rfl
  | cons p rest ih =>
    simp only [List.map_cons]
    by_cases hp : p.1 = k
    · rw [if_pos hp]
      simp only [ih]
      rw [hp]
    · rw [if_neg hp]
      simp only [ih]

theorem keys_alSet {β : Type} (m : List (JStr × β)) (k : JStr) (v : β) :
    (alSet m k v).map (fun p => p.1) =
      if (alGet? m k).isSome then m.map (fun p => p.1)
      else m.map (fun p => p.1) ++ [k] := by
  unfold alSet
  by_cases h : (alGet? m k).isSome
  · rw [if_pos h, if_pos h]
    exact keys_mapSet m k v
  · rw [if_neg h, if_neg h]
    simp

theorem alGet?_isSome_iff_mem_keys {β : Type} (m : List (JStr × β)) (k : JStr) :
    (alGet? m k).isSome ↔ k ∈ m.map (fun p => p.1) := by
  induction m with
  | nil => simp [alGet?]
  | cons p rest ih =>
    simp only [alGet?, List.map_cons, List.mem_cons]
    by_cases hp : p.1 = k
    · simp [hp]
    · rw [if_neg hp]
      simp only [ih]
      constructor
      · exact Or.inr
      · rintro (he | hm)
        · exact absurd he.symm hp
        · exact hm

theorem alGet?_of_mem_nodup {β : Type} {m : List (JStr × β)} {k : JStr} {v : β}
    (hmem : (k, v) ∈ m) (hnd : (m.map (fun p => p.1)).Nodup) :
    alGet? m k = some v := by
  induction m with
  | nil => simp at hmem
  | cons p rest ih =>
    simp only [List.map_cons, List.nodup_cons] at hnd
    rcases List.mem_cons.mp hmem with rfl | hmem'
    · simp [alGet?]
    · have hk : k ∈ rest.map (fun p => p.1) :=
        List.mem_map.mpr ⟨(k, v), hmem', rfl⟩
      have hp : p.1 ≠ k := fun he => hnd.1 (he ▸ hk)
      simp only [alGet?, if_neg hp]
      exact ih hmem' hnd.2

theorem alGet?_graph {β : Type} (l : List JStr) (f : JStr → β) (k : JStr) :
    alGet? (l.map (fun d => (d, f d))) k = if k ∈ l then some (f k) else none := by
  induction l with
  | nil => simp [alGet?]
  | cons a t ih =>
    simp only [List.map_cons, alGet?, List.mem_cons]
    by_cases ha : a = k
    · rw [if_pos ha, if_pos (Or.inl ha.symm), ha]
    · rw [if_neg ha, ih]
      by_cases hk : k ∈ t
      · rw [if_pos hk, if_pos (Or.inr hk)]
      · rw [if_neg hk, if_neg (by rintro (he | hm); exact ha he.symm; exact hk hm)]

/-! Lemmas about `dedupFirst` and the builder's folds. -/

theorem foldl_dedupStep_mem {α : Type} [DecidableEq α] (l : List α) :
    ∀ (acc : List α) (x : α),
      (x ∈ l.foldl dedupStep acc) ↔ x ∈ acc ∨ x ∈ l := by
  induction l with
  | nil => simp
  | cons a t ih =>
    intro acc x
    simp only [List.foldl_cons]
    rw [ih]
    unfold dedupStep
    by_cases ha : a ∈ acc
    · rw [if_pos ha]
      simp only [List.mem_cons]
      constructor
      · rintro (h1 | h2)
        · exact Or.inl h1
        · exact Or.inr (Or.inr h2)
      · rintro (h1 | h2 | h3)
        · exact Or.inl h1
        · exact Or.inl (h2 ▸ ha)
        · exact Or.inr h3
    · rw [if_neg ha]
      simp only [List.mem_append, List.mem_singleton, List.mem_cons]
      tauto

theorem mem_dedupFirst {α : Type} [DecidableEq α] (l : List α) (x : α) :
    x ∈ dedupFirst l ↔ x ∈ l := by
  unfold dedupFirst
  rw [foldl_dedupStep_mem]
  simp

theorem nodup_foldl_dedupStep {α : Type} [DecidableEq α] (l : List α) :
    ∀ acc : List α, acc.Nodup → (l.foldl dedupStep acc).Nodup := by
  induction l with
  | nil => intro acc h; simpa
  | cons a t ih =>
    intro acc h
    simp only [List.foldl_cons]
    apply ih
    unfold dedupStep
    by_cases ha : a ∈ acc
    · rwa [if_pos ha]
    · rw [if_neg ha]
      exact h.append (List.nodup_singleton a)
        (fun x hx hx' => by simp at hx'; exact ha (hx' ▸ hx))

theorem nodup_dedupFirst {α : Type} [DecidableEq α] (l : List α) :
    (dedupFirst l).Nodup :=
  nodup_foldl_dedupStep l [] List.nodup_nil

theorem innerIns_keys (g : ModelMap) (r : MarkerRecord) :
    (innerIns g r).map (fun p => p.1) =
      dedupStep (g.map (fun p => p.1)) r.model := by
  unfold innerIns dedupStep
  rw [keys_alSet]
  by_cases h : (alGet? g r.model).isSome
  · rw [if_pos h, if_pos ((alGet?_isSome_iff_mem_keys g r.model).mp h)]
  · rw [if_neg h, if_neg (fun hm => h ((alGet?_isSome_iff_mem_keys g r.model).mpr hm))]

theorem innerBuild_keys (rs : List MarkerRecord) : ∀ g : ModelMap,
    (rs.foldl innerIns g).map (fun p => p.1) =
      (rs.map (fun r => r.model)).foldl dedupStep (g.map (fun p => p.1)) := by
  induction rs with
  | nil => intro g; rfl
  | cons r t ih =>
    intro g
    simp only [List.foldl_cons, List.map_cons]
    rw [ih (innerIns g r), innerIns_keys]

theorem innerBuild_keys_nil (rs : List MarkerRecord) :
    (rs.foldl innerIns []).map (fun p => p.1) =
      dedupFirst (rs.map (fun r => r.model)) := by
  rw [innerBuild_keys]
  rfl

theorem innerBuild_get (rs : List MarkerRecord) : ∀ (g : ModelMap) (mdl : JStr),
    alGet? (rs.foldl innerIns g) mdl =
      match rs.reverse.find? (fun r => r.model == mdl) with
      | some r => some (r.accuracy, r.rank)
      | none => alGet? g mdl := by
  induction rs with
  | nil => intro g mdl; simp
  | cons r t ih =>
    intro g mdl
    simp only [List.foldl_cons, List.reverse_cons, List.find?_append]
    rw [ih (innerIns g r) mdl]
    cases hf : t.reverse.find? (fun r => r.model == mdl) with
    | some r' => simp
    | none =>
      simp only [Option.none_or]
      by_cases hm : r.model = mdl
      · have hb : (r.model == mdl) = true := by simp [hm]
        simp only [List.find?, hb]
        subst hm
        unfold innerIns
        rw [alGet?_alSet_self]
      · have hb : (r.model == mdl) = false := by simp [hm]
        simp only [List.find?, hb]
        unfold innerIns
        exact alGet?_alSet_ne g r.model mdl _ (fun he => hm he.symm)

theorem markerStep_get_self (m : StyleMap) (r : MarkerRecord) :
    alGet? (markerStep m r) r.marker_style =
      some (innerIns ((alGet? m r.marker_style).getD []) r) := by
  unfold markerStep innerIns
  by_cases h : (alGet? m r.marker_style).isSome
  · simp only [if_pos h]
    rw [alGet?_alSet_self]
  · simp only [if_neg h]
    rw [alGet?_alSet_self]
    have hnone : alGet? m r.marker_style = none := by
      rwa [Option.not_isSome_iff_eq_none] at h
    rw [alGet?_append_self m _ _ hnone, hnone]
    rfl

theorem markerStep_get_ne (m : StyleMap) (r : MarkerRecord) (s : JStr)
    (h : s ≠ r.marker_style) : alGet? (markerStep m r) s = alGet? m s := by
  unfold markerStep
  by_cases hc : (alGet? m r.marker_style).isSome
  · simp only [if_pos hc]
    exact alGet?_alSet_ne _ _ _ _ h
  · simp only [if_neg hc]
    rw [alGet?_alSet_ne _ _ _ _ h]
    exact alGet?_append_ne _ _ _ _ h

theorem markerStep_keys (m : StyleMap) (r : MarkerRecord) :
    (markerStep m r).map (fun p => p.1) =
      if (alGet? m r.marker_style).isSome then m.map (fun p => p.1)
      else m.map (fun p => p.1) ++ [r.marker_style] := by
  unfold markerStep
  by_cases hc : (alGet? m r.marker_style).isSome
  · simp only [if_pos hc]
    rw [keys_alSet, if_pos hc]
  · simp only [if_neg hc]
    have hnone : alGet? m r.marker_style = none := by
      rwa [Option.not_isSome_iff_eq_none] at hc
    rw [keys_alSet, if_pos (by rw [alGet?_append_self m _ _ hnone]; rfl)]
    simp

theorem markerFold_get (rows : List MarkerRecord) : ∀ (m : StyleMap) (s : JStr),
    alGet? (rows.foldl markerStep m) s =
      if rows.any (fun r => r.marker_style == s) then
        some ((rows.filter (fun r => r.marker_style == s)).foldl innerIns
          ((alGet? m s).getD []))
      else alGet? m s := by
  induction rows with
  | nil => intro m s; simp
  | cons r t ih =>
    intro m s
    simp only [List.foldl_cons, List.any_cons, List.filter_cons]
    by_cases hrs : r.marker_style = s
    · have hb : (r.marker_style == s) = true := by simp [hrs]
      rw [ih (markerStep m r) s]
      subst hrs
      rw [markerStep_get_self m r]
      simp only [hb, Bool.true_or, if_true, Option.getD_some, List.foldl_cons]
      by_cases hany : t.any (fun r' => r'.marker_style == r.marker_style) = true
      · rw [if_pos hany]
      · rw [if_neg hany]
        have hfil : t.filter (fun r' => r'.marker_style == r.marker_style) = [] := by
          rw [List.filter_eq_nil_iff]
          intro a ha
          intro hpa
          exact hany (List.any_eq_true.mpr ⟨a, ha, hpa⟩)
        rw [hfil]
        rfl
    · have hb : (r.marker_style == s) = false := by simp [hrs]
      rw [ih (markerStep m r) s, markerStep_get_ne m r s (fun he => hrs he.symm)]
      simp [hb]

theorem markerFold_keys (rows : List MarkerRecord) : ∀ m : StyleMap,
    (∀ r ∈ rows, (alGet? m r.marker_style).isSome) →
      (rows.foldl markerStep m).map (fun p => p.1) = m.map (fun p => p.1) := by
  induction rows with
  | nil => intro m _; rfl
  | cons r t ih =>
    intro m h
    simp only [List.foldl_cons]
    have h1 : (alGet? m r.marker_style).isSome = true := h r (by simp)
    rw [ih (markerStep m r) ?_, markerStep_keys, if_pos h1]
    intro r' hr'
    by_cases hsame : r'.marker_style = r.marker_style
    · rw [hsame, markerStep_get_self]
      rfl
    · rw [markerStep_get_ne m r _ hsame]
      exact h r' (by simp [hr'])

theorem list_all_congr {α : Type} {p q : α → Bool} :
    ∀ {l : List α}, (∀ x ∈ l, p x = q x) → l.all p = l.all q := by
  intro l h
  induction l with
  | nil => rfl
  | cons a t ih =>
    simp only [List.all_cons]
    rw [h a (by simp), ih (fun x hx => h x (by simp [hx]))]

theorem byStyle_get (rows : List MarkerRecord) (s : JStr) :
    alGet? (byStyleByModelOf rows) s =
      if rows.any (fun r => r.marker_style == s) then
        some ((rows.filter (fun r => r.marker_style == s)).foldl innerIns [])
      else none := by
  unfold byStyleByModelOf
  rw [markerFold_get]
  by_cases h : rows.any (fun r => r.marker_style == s) = true
  · rw [if_pos h, if_pos h]
    rw [alGet?_graph]
    by_cases hm : s ∈ dedupFirst (rows.map (fun r => r.marker_style))
    · rw [if_pos hm]
      rfl
    · rw [if_neg hm]
      rfl
  · rw [if_neg h, if_neg h]
    rw [alGet?_graph, if_neg ?_]
    intro hm
    rw [mem_dedupFirst] at hm
    obtain ⟨r, hr, hrs⟩ := List.mem_map.mp hm
    exact h (List.any_eq_true.mpr ⟨r, hr, by simp [hrs]⟩)

theorem byStyle_keys (rows : List MarkerRecord) :
    (byStyleByModelOf rows).map (fun p => p.1) =
      dedupFirst (rows.map (fun r => r.marker_style)) := by
  unfold byStyleByModelOf
  have h : ∀ r ∈ rows,
      (alGet? ((dedupFirst (rows.map (fun r => r.marker_style))).map
        (fun s => (s, ([] : ModelMap)))) r.marker_style).isSome := by
    intro r hr
    rw [alGet?_graph,
      if_pos ((mem_dedupFirst _ _).mpr (List.mem_map.mpr ⟨r, hr, rfl⟩))]
    rfl
  rw [markerFold_keys rows _ h]
  rw [List.map_map]
  exact List.map_id _

theorem byStyle_get_of_mem (rows : List MarkerRecord) (s : JStr)
    (h : rows.any (fun r => r.marker_style == s) = true) :
    alGet? (byStyleByModelOf rows) s =
      some ((rows.filter (fun r => r.marker_style == s)).foldl innerIns []) := by
  rw [byStyle_get, if_pos h]

theorem defaultModelsOf_eq_spec (rows : List MarkerRecord) :
    defaultModelsOf rows = specCandidateModels rows := by
  unfold defaultModelsOf specCandidateModels
  by_cases h : rows.any (fun r => r.marker_style == jstr "default") = true
  · rw [if_pos h, byStyle_get_of_mem rows _ h]
    exact innerBuild_keys_nil _
  · rw [if_neg h, byStyle_get, if_neg h]

theorem presence_pred_eq (rows : List MarkerRecord) (m : JStr) (s : JStr)
    (hs : s ∈ dedupFirst (rows.map (fun r => r.marker_style))) :
    (match alGet? (byStyleByModelOf rows) s with
     | some modelMap => (alGet? modelMap m).isSome
     | none => false) =
    rows.any (fun r => r.marker_style == s && r.model == m) := by
  have hany : rows.any (fun r => r.marker_style == s) = true := by
    rw [mem_dedupFirst] at hs
    obtain ⟨r, hr, hrs⟩ := List.mem_map.mp hs
    exact List.any_eq_true.mpr ⟨r, hr, by simp [hrs]⟩
  rw [byStyle_get_of_mem rows s hany]
  show (alGet? ((rows.filter (fun r => r.marker_style == s)).foldl innerIns []) m).isSome = _
  rw [innerBuild_get]
  cases hf : (rows.filter (fun r => r.marker_style == s)).reverse.find?
      (fun r => r.model == m) with
  | some r' =>
    have hr' : r' ∈ (rows.filter (fun r => r.marker_style == s)).reverse :=
      List.mem_of_find?_eq_some hf
    have hp := List.find?_some hf
    rw [List.mem_reverse, List.mem_filter] at hr'
    simp only [Option.isSome_some]
    exact (List.any_eq_true.mpr ⟨r', hr'.1,
      by rw [Bool.and_eq_true]; exact ⟨hr'.2, hp⟩⟩).symm
  | none =>
    show (alGet? ([] : ModelMap) m).isSome = _
    simp only [alGet?, Option.isSome_none]
    symm
    rw [List.any_eq_false]
    intro r hr hp
    rw [Bool.and_eq_true] at hp
    have hmem : r ∈ (rows.filter (fun r => r.marker_style == s)).reverse := by
      rw [List.mem_reverse, List.mem_filter]
      exact ⟨hr, hp.1⟩
    exact (List.find?_eq_none.mp hf r hmem) hp.2

theorem buildMarkerDataset_models (rows : List MarkerRecord) :
    (buildMarkerDataset rows).models = specModels rows := by
  show modelsOf rows = specModels rows
  unfold modelsOf specModels
  rw [defaultModelsOf_eq_spec]
  apply List.filter_congr
  intro m _
  rw [byStyle_keys]
  apply list_all_congr
  intro s hs
  exact presence_pred_eq rows m s hs

/-- C1: for every record list, each built dataset's `models` list is
exactly the candidate ordering (the "default" style's models in
first-appearance order, or all distinct models when no "default" style
exists) filtered to the models present in every style's mapping; and in
the §8 scenario (styles `default`/`color_blue`, models A/B, B missing from
`color_blue`) the built models list for "DA2k" excludes "B". -/
theorem buildMarkerData_models_spec :
    (∀ records : List MarkerRecord,
      (buildMarkerData records).map (fun p => (p.1, p.2.models)) =
        (dedupFirst (records.map (fun r => r.dataset))).map
          (fun d => (d, specModels (records.filter (fun r => r.dataset == d))))) ∧
    (buildMarkerData markerScenarioC1).map (fun p => (p.1, p.2.models)) =
      [(jstr "DA2k", [jstr "A"])] := by
  constructor
  · intro records
    unfold buildMarkerData
    rw [List.map_map]
    apply List.map_congr_left
    intro d _
    show (d, (buildMarkerDataset _).models) = _
    rw [buildMarkerDataset_models]
  · decide

theorem list_find?_congr {α : Type} {p q : α → Bool} (h : ∀ x, p x = q x) :
    ∀ (l : List α), l.find? p = l.find? q := by
  intro l
  induction l with
  | nil => rfl
  | cons a t ih =>
    simp only [List.find?]
    rw [h a]
    cases q a with
    | true => rfl
    | false => exact ih

theorem specLookup_eq_filterFind (rows : List MarkerRecord) (s m : JStr) :
    specLookup rows s m =
      ((rows.filter (fun r => r.marker_style == s)).reverse.find?
        (fun r => r.model == m)).map (fun r => (r.accuracy, r.rank)) := by
  unfold specLookup
  rw [← List.filter_reverse, List.find?_filter]
  congr 1
  refine list_find?_congr (fun r => ?_) rows.reverse
  by_cases h1 : r.marker_style = s <;> by_cases h2 : r.model = m <;> simp [h1, h2]

theorem buildMarkerDataset_aligned (rows : List MarkerRecord)
    (s : JStr) (series : StyleSeries)
    (hs : (s, series) ∈ (buildMarkerDataset rows).styles) :
    series.accuracies.length = (buildMarkerDataset rows).models.length ∧
    series.ranks.length = (buildMarkerDataset rows).models.length ∧
    ∀ i, i < (buildMarkerDataset rows).models.length →
      specLookup rows s ((buildMarkerDataset rows).models.getD i []) =
        some (series.accuracies.getD i 0, series.ranks.getD i 0) := by
  obtain ⟨p, hp, heq⟩ := List.mem_map.mp hs
  rw [Prod.mk.injEq] at heq
  obtain ⟨hp1, hp2⟩ := heq
  have hkeys : ((byStyleByModelOf rows).map (fun p => p.1)).Nodup := by
    rw [byStyle_keys]
    exact nodup_dedupFirst _
  have hgetp : alGet? (byStyleByModelOf rows) s = some p.2 := by
    apply alGet?_of_mem_nodup _ hkeys
    rw [← hp1]
    exact hp
  have hsmem : s ∈ dedupFirst (rows.map (fun r => r.marker_style)) := by
    rw [← byStyle_keys]
    exact List.mem_map.mpr ⟨p, hp, hp1⟩
  have hany : rows.any (fun r => r.marker_style == s) = true := by
    rw [mem_dedupFirst] at hsmem
    obtain ⟨r, hr, hrs⟩ := List.mem_map.mp hsmem
    exact List.any_eq_true.mpr ⟨r, hr, by simp [hrs]⟩
  have hp2' : p.2 = (rows.filter (fun r => r.marker_style == s)).foldl innerIns [] := by
    have := byStyle_get_of_mem rows s hany
    rw [hgetp] at this
    exact Option.some.inj this
  refine ⟨?_, ?_, ?_⟩
  · rw [← hp2]
    exact List.length_map _ _
  · rw [← hp2]
    exact List.length_map _ _
  · intro i hi
    have hi' : i < (modelsOf rows).length := hi
    have hgetm : (buildMarkerDataset rows).models.getD i [] = (modelsOf rows)[i] := by
      show (modelsOf rows).getD i [] = _
      rw [List.getD_eq_getElem?_getD, List.getElem?_eq_getElem hi']
      rfl
    have hmem : (modelsOf rows)[i] ∈ modelsOf rows := List.getElem_mem hi'
    have hacc : series.accuracies.getD i 0 =
        ((alGet? p.2 (modelsOf rows)[i]).getD (0, 0)).1 := by
      rw [← hp2]
      show ((modelsOf rows).map (fun m => ((alGet? p.2 m).getD (0, 0)).1)).getD i 0 = _
      rw [List.getD_eq_getElem?_getD, List.getElem?_map, List.getElem?_eq_getElem hi']
      rfl
    have hrank : series.ranks.getD i 0 =
        ((alGet? p.2 (modelsOf rows)[i]).getD (0, 0)).2 := by
      rw [← hp2]
      show ((modelsOf rows).map (fun m => ((alGet? p.2 m).getD (0, 0)).2)).getD i 0 = _
      rw [List.getD_eq_getElem?_getD, List.getElem?_map, List.getElem?_eq_getElem hi']
      rfl
    rw [hgetm, hacc, hrank]
    generalize (modelsOf rows)[i] = m at hmem ⊢
    have hall : ∀ x ∈ (byStyleByModelOf rows).map (fun p => p.1),
        (match alGet? (byStyleByModelOf rows) x with
         | some modelMap => (alGet? modelMap m).isSome
         | none => false) = true := by
      have hmem2 := hmem
      unfold modelsOf at hmem2
      rw [List.mem_filter] at hmem2
      exact List.all_eq_true.mp hmem2.2
    have hsome := hall s (List.mem_map.mpr ⟨p, hp, hp1⟩)
    rw [hgetp] at hsome
    have hsome2 : (alGet? p.2 m).isSome = true := hsome
    obtain ⟨v, hv⟩ := Option.isSome_iff_exists.mp hsome2
    rw [hv]
    rw [hp2', innerBuild_get] at hv
    rw [specLookup_eq_filterFind]
    cases hf : (rows.filter (fun r => r.marker_style == s)).reverse.find?
        (fun r => r.model == m) with
    | none =>
      rw [hf] at hv
      simp [alGet?] at hv
    | some r' =>
      rw [hf] at hv
      have hv' := Option.some.inj hv
      simp [← hv']

/-- C2: in every dataset built by the Marker Dataset Builder, every
style's `accuracies` and `ranks` arrays have length exactly
`models.length`, and index `i` of each array holds the accuracy/rank of
the model at index `i` of `models` (under that style, last write wins). -/
theorem buildMarkerData_aligned (records : List MarkerRecord) (d : JStr)
    (ds : MarkerDataset) (hds : alGet? (buildMarkerData records) d = some ds)
    (s : JStr) (series : StyleSeries) (hs : (s, series) ∈ ds.styles) :
    series.accuracies.length = ds.models.length ∧
    series.ranks.length = ds.models.length ∧
    ∀ i, i < ds.models.length →
      specLookup (records.filter (fun r => r.dataset == d)) s
        (ds.models.getD i []) =
        some (series.accuracies.getD i 0, series.ranks.getD i 0) := by
  unfold buildMarkerData at hds
  rw [alGet?_graph] at hds
  by_cases hd : d ∈ dedupFirst (records.map (fun r => r.dataset))
  · rw [if_pos hd] at hds
    have hds' := Option.some.inj hds
    subst hds'
    exact buildMarkerDataset_aligned _ s series hs
  · rw [if_neg hd] at hds
    exact absurd hds (by simp)

theorem buildMarkerData_aligned_witness :
    ((⟨[(80 : ℚ)], [(1 : Int)]⟩ : StyleSeries).accuracies.length =
      (buildMarkerDataset (markerScenarioC1.filter
        (fun r => r.dataset == jstr "DA2k"))).models.length) ∧
    ((⟨[(80 : ℚ)], [(1 : Int)]⟩ : StyleSeries).ranks.length =
      (buildMarkerDataset (markerScenarioC1.filter
        (fun r => r.dataset == jstr "DA2k"))).models.length) ∧
    ∀ i, i < (buildMarkerDataset (markerScenarioC1.filter
        (fun r => r.dataset == jstr "DA2k"))).models.length →
      specLookup (markerScenarioC1.filter (fun r => r.dataset == jstr "DA2k"))
        (jstr "default")
        ((buildMarkerDataset (markerScenarioC1.filter
          (fun r => r.dataset == jstr "DA2k"))).models.getD i []) =
        some ((⟨[(80 : ℚ)], [(1 : Int)]⟩ : StyleSeries).accuracies.getD i 0,
          (⟨[(80 : ℚ)], [(1 : Int)]⟩ : StyleSeries).ranks.getD i 0) :=
  buildMarkerData_aligned markerScenarioC1 (jstr "DA2k")
    (buildMarkerDataset (markerScenarioC1.filter (fun r => r.dataset == jstr "DA2k")))
    (by decide) (jstr "default") ⟨[(80 : ℚ)], [(1 : Int)]⟩ (by decide)

theorem deltaColor_spec (d : ℚ) :
    ((if 0 < d then jstr "#10b981" else if d < 0 then jstr "#ef4444"
        else jstr "#6b7280") = jstr "#10b981" ↔ 0 < d) ∧
    ((if 0 < d then jstr "#10b981" else if d < 0 then jstr "#ef4444"
        else jstr "#6b7280") = jstr "#ef4444" ↔ d < 0) ∧
    ((if 0 < d then jstr "#10b981" else if d < 0 then jstr "#ef4444"
        else jstr "#6b7280") = jstr "#6b7280" ↔ d = 0) := by
  split_ifs with h1 h2
  · refine ⟨by simp [h1], ?_, ?_⟩
    · simp only [iff_iff_implies_and_implies]
      exact ⟨fun he => absurd he (by decide), fun hlt => absurd hlt (lt_asymm h1)⟩
    · simp only [iff_iff_implies_and_implies]
      exact ⟨fun he => absurd he (by decide), fun hz => absurd h1 (by rw [hz]; exact lt_irrefl 0)⟩
  · refine ⟨?_, by simp [h2], ?_⟩
    · simp only [iff_iff_implies_and_implies]
      exact ⟨fun he => absurd he (by decide), fun hlt => absurd hlt h1⟩
    · simp only [iff_iff_implies_and_implies]
      exact ⟨fun he => absurd he (by decide), fun hz => absurd h2 (by rw [hz]; exact lt_irrefl 0)⟩
  · have hz : d = 0 := le_antisymm (not_lt.mp h1) (not_lt.mp h2)
    refine ⟨?_, ?_, by simp [hz]⟩
    · simp only [iff_iff_implies_and_implies]
      exact ⟨fun he => absurd he (by decide), fun hlt => absurd hlt h1⟩
    · simp only [iff_iff_implies_and_implies]
      exact ⟨fun he => absurd he (by decide), fun hlt => absurd hlt h2⟩

theorem updateVisualization_general (ds : MarkerDataset) (markerKey : JStr)
    (dd sd : StyleSeries)
    (hdef : alGet? ds.styles (jstr "default") = some dd)
    (hsel : alGet? ds.styles markerKey = some sd) :
    ∃ out, updateVisualization ds markerKey = some out ∧
      ∀ i, i < ds.models.length →
        out.deltas.getD i 0 =
          sd.accuracies.getD i 0 - dd.accuracies.getD i 0 ∧
        (out.deltaColors.getD i [] = jstr "#10b981" ↔
          0 < sd.accuracies.getD i 0 - dd.accuracies.getD i 0) ∧
        (out.deltaColors.getD i [] = jstr "#ef4444" ↔
          sd.accuracies.getD i 0 - dd.accuracies.getD i 0 < 0) ∧
        (out.deltaColors.getD i [] = jstr "#6b7280" ↔
          sd.accuracies.getD i 0 - dd.accuracies.getD i 0 = 0) ∧
        (out.tableRows.getD i ⟨[], 0, 0, []⟩).rankDelta =
          dd.ranks.getD i 0 - sd.ranks.getD i 0 := by
  unfold updateVisualization
  rw [hdef]
  refine ⟨_, rfl, ?_⟩
  intro i hi
  have hsel' : (alGet? ds.styles markerKey).getD dd = sd := by rw [hsel]; rfl
  rw [hsel']
  have hdelta : ((List.range ds.models.length).map (fun i =>
      sd.accuracies.getD i 0 - dd.accuracies.getD i 0)).getD i 0 =
      sd.accuracies.getD i 0 - dd.accuracies.getD i 0 := by
    rw [List.getD_eq_getElem?_getD, List.getElem?_map, List.getElem?_range hi]
    rfl
  have hcolor : (((List.range ds.models.length).map (fun i =>
      sd.accuracies.getD i 0 - dd.accuracies.getD i 0)).map (fun d =>
        if 0 < d then jstr "#10b981" else if d < 0 then jstr "#ef4444"
        else jstr "#6b7280")).getD i [] =
      (if 0 < sd.accuracies.getD i 0 - dd.accuracies.getD i 0 then jstr "#10b981"
       else if sd.accuracies.getD i 0 - dd.accuracies.getD i 0 < 0 then jstr "#ef4444"
       else jstr "#6b7280") := by
    rw [List.getD_eq_getElem?_getD, List.getElem?_map, List.getElem?_map,
      List.getElem?_range hi]
    rfl
  have hrow : (((List.range ds.models.length).map (fun i =>
      (⟨ds.models.getD i [], sd.ranks.getD i 0,
        dd.ranks.getD i 0 - sd.ranks.getD i 0,
        if 0 < dd.ranks.getD i 0 - sd.ranks.getD i 0 then jstr "deltaUp"
        else if dd.ranks.getD i 0 - sd.ranks.getD i 0 < 0 then jstr "deltaDown"
        else jstr "deltaZero"⟩ : LbRow))).getD i ⟨[], 0, 0, []⟩).rankDelta =
      dd.ranks.getD i 0 - sd.ranks.getD i 0 := by
    rw [List.getD_eq_getElem?_getD, List.getElem?_map, List.getElem?_range hi]
    rfl
  refine ⟨hdelta, ?_, ?_, ?_, hrow⟩
  · rw [hcolor]
    exact (deltaColor_spec _).1
  · rw [hcolor]
    exact (deltaColor_spec _).2.1
  · rw [hcolor]
    exact (deltaColor_spec _).2.2

/-- C3: with both the "default" baseline and the selected style present,
`updateVisualization` computes delta i as `selected.accuracies[i] −
default.accuracies[i]`, colors it green exactly when positive, red exactly
when negative and grey exactly when exactly zero, and computes the table
rank delta as `default.ranks[i] − selected.ranks[i]`; in the §8 scenario
the M1 delta is 2 with the green (up) color and the M1 rank delta is 1. -/
theorem updateVisualization_spec :
    (∀ (ds : MarkerDataset) (markerKey : JStr) (dd sd : StyleSeries),
      alGet? ds.styles (jstr "default") = some dd →
      alGet? ds.styles markerKey = some sd →
      ∃ out, updateVisualization ds markerKey = some out ∧
        ∀ i, i < ds.models.length →
          out.deltas.getD i 0 =
            sd.accuracies.getD i 0 - dd.accuracies.getD i 0 ∧
          (out.deltaColors.getD i [] = jstr "#10b981" ↔
            0 < sd.accuracies.getD i 0 - dd.accuracies.getD i 0) ∧
          (out.deltaColors.getD i [] = jstr "#ef4444" ↔
            sd.accuracies.getD i 0 - dd.accuracies.getD i 0 < 0) ∧
          (out.deltaColors.getD i [] = jstr "#6b7280" ↔
            sd.accuracies.getD i 0 - dd.accuracies.getD i 0 = 0) ∧
          (out.tableRows.getD i ⟨[], 0, 0, []⟩).rankDelta =
            dd.ranks.getD i 0 - sd.ranks.getD i 0) ∧
    (∃ out, updateVisualization
        (buildMarkerDataset (markerScenarioC3.filter
          (fun r => r.dataset == jstr "style_a"))) (jstr "x") = some out ∧
      out.deltas.getD 0 0 = (2 : ℚ) ∧
      out.deltaColors.getD 0 [] = jstr "#10b981" ∧
      (out.tableRows.getD 0 ⟨[], 0, 0, []⟩).rankDelta = (1 : Int)) := by
  refine ⟨updateVisualization_general, ?_⟩
  obtain ⟨out, hout, hprop⟩ := updateVisualization_general
    (buildMarkerDataset (markerScenarioC3.filter
      (fun r => r.dataset == jstr "style_a"))) (jstr "x")
    ⟨[80, 90], [2, 1]⟩ ⟨[82, 85], [1, 2]⟩ (by decide) (by decide)
  have h0 := hprop 0 (by decide)
  refine ⟨out, hout, ?_, ?_, ?_⟩
  · rw [h0.1]
    show (82 : ℚ) - 80 = 2
    norm_num
  · refine h0.2.1.mpr ?_
    show (0 : ℚ) < 82 - 80
    norm_num
  · rw [h0.2.2.2.2]
    decide

theorem updateVisualization_spec_witness :
    ∃ out, updateVisualization
        (buildMarkerDataset (markerScenarioC3.filter
          (fun r => r.dataset == jstr "style_a"))) (jstr "default") = some out ∧
      ∀ i, i < (buildMarkerDataset (markerScenarioC3.filter
          (fun r => r.dataset == jstr "style_a"))).models.length →
        out.deltas.getD i 0 =
          (⟨[80, 90], [2, 1]⟩ : StyleSeries).accuracies.getD i 0 -
            (⟨[80, 90], [2, 1]⟩ : StyleSeries).accuracies.getD i 0 ∧
        (out.deltaColors.getD i [] = jstr "#10b981" ↔
          0 < (⟨[80, 90], [2, 1]⟩ : StyleSeries).accuracies.getD i 0 -
            (⟨[80, 90], [2, 1]⟩ : StyleSeries).accuracies.getD i 0) ∧
        (out.deltaColors.getD i [] = jstr "#ef4444" ↔
          (⟨[80, 90], [2, 1]⟩ : StyleSeries).accuracies.getD i 0 -
            (⟨[80, 90], [2, 1]⟩ : StyleSeries).accuracies.getD i 0 < 0) ∧
        (out.deltaColors.getD i [] = jstr "#6b7280" ↔
          (⟨[80, 90], [2, 1]⟩ : StyleSeries).accuracies.getD i 0 -
            (⟨[80, 90], [2, 1]⟩ : StyleSeries).accuracies.getD i 0 = 0) ∧
        (out.tableRows.getD i ⟨[], 0, 0, []⟩).rankDelta =
          (⟨[80, 90], [2, 1]⟩ : StyleSeries).ranks.getD i 0 -
            (⟨[80, 90], [2, 1]⟩ : StyleSeries).ranks.getD i 0 :=
  updateVisualization_spec.1
    (buildMarkerDataset (markerScenarioC3.filter
      (fun r => r.dataset == jstr "style_a"))) (jstr "default")
    ⟨[80, 90], [2, 1]⟩ ⟨[80, 90], [2, 1]⟩ (by decide) (by decide)

/-- C8: when the selected style key is absent from the dataset's style
mapping (and "default" is present), `updateVisualization` falls back to
the "default" style's data: its output equals the output for "default". -/
theorem updateVisualization_fallback (ds : MarkerDataset) (markerKey : JStr)
    (dd : StyleSeries) (hdef : alGet? ds.styles (jstr "default") = some dd)
    (hsel : alGet? ds.styles markerKey = none) :
    updateVisualization ds markerKey = updateVisualization ds (jstr "default") := by
  unfold updateVisualization
  rw [hdef, hsel]
  rfl

theorem updateVisualization_fallback_witness :
    updateVisualization
        (buildMarkerDataset (markerScenarioC3.filter
          (fun r => r.dataset == jstr "style_a"))) (jstr "radius_3") =
      updateVisualization
        (buildMarkerDataset (markerScenarioC3.filter
          (fun r => r.dataset == jstr "style_a"))) (jstr "default") :=
  updateVisualization_fallback _ (jstr "radius_3") ⟨[80, 90], [2, 1]⟩
    (by decide) (by decide)

theorem alGet?_alSet_isSome {β : Type} (m : List (JStr × β)) (k k' : JStr) (v : β) :
    (alGet? (alSet m k v) k').isSome ↔ k' = k ∨ (alGet? m k').isSome := by
  by_cases h : k' = k
  · subst h
    rw [alGet?_alSet_self]
    simp
  · rw [alGet?_alSet_ne _ _ _ _ h]
    simp [h]

theorem headerIndex_fold_isSome (pairs : List (Nat × JStr)) :
    ∀ (m : List (JStr × Nat)) (k : JStr),
      (alGet? (pairs.foldl (fun m p => if p.2 = [] then m else alSet m p.2 p.1) m)
        k).isSome ↔
        (alGet? m k).isSome ∨ ∃ p ∈ pairs, p.2 = k ∧ p.2 ≠ [] := by
  induction pairs with
  | nil => simp
  | cons q t ih =>
    intro m k
    simp only [List.foldl_cons]
    rw [ih]
    by_cases hq : q.2 = []
    · rw [if_pos hq]
      simp only [List.mem_cons]
      constructor
      · rintro (h1 | ⟨p, hp, hpk, hpne⟩)
        · exact Or.inl h1
        · exact Or.inr ⟨p, Or.inr hp, hpk, hpne⟩
      · rintro (h1 | ⟨p, hp | hp, hpk, hpne⟩)
        · exact Or.inl h1
        · exact absurd (hp ▸ hq) hpne
        · exact Or.inr ⟨p, hp, hpk, hpne⟩
    · rw [if_neg hq]
      rw [alGet?_alSet_isSome]
      simp only [List.mem_cons]
      constructor
      · rintro ((heq | h1) | ⟨p, hp, hpk, hpne⟩)
        · exact Or.inr ⟨q, Or.inl rfl, heq.symm, hq⟩
        · exact Or.inl h1
        · exact Or.inr ⟨p, Or.inr hp, hpk, hpne⟩
      · rintro (h1 | ⟨p, hp | hp, hpk, hpne⟩)
        · exact Or.inl (Or.inr h1)
        · exact Or.inl (Or.inl (hp ▸ hpk.symm))
        · exact Or.inr ⟨p, hp, hpk, hpne⟩

theorem buildCsvHeaderIndex_isSome (headers : List JStr) (k : JStr) :
    (alGet? (buildCsvHeaderIndex headers) k).isSome ↔ k ∈ headers ∧ k ≠ [] := by
  unfold buildCsvHeaderIndex
  rw [headerIndex_fold_isSome]
  simp only [alGet?, Option.isSome_none, Bool.false_eq_true, false_or]
  constructor
  · rintro ⟨p, hp, hpk, hpne⟩
    have hget := List.mk_mem_enum_iff_getElem?.mp hp
    subst hpk
    refine ⟨?_, hpne⟩
    exact List.getElem?_mem hget
  · rintro ⟨hmem, hne⟩
    obtain ⟨i, hi⟩ := List.mem_iff_getElem?.mp hmem
    exact ⟨(i, k), List.mk_mem_enum_iff_getElem?.mpr hi, rfl, hne⟩

theorem markerHeaderIdx?_none_of_not_mem (csvText : JStr) (name : JStr)
    (hnm : name ∉ (parseSimpleCsv csvText).headers) :
    markerHeaderIdx? csvText name = none := by
  unfold markerHeaderIdx?
  rw [← Option.not_isSome_iff_eq_none]
  intro hs
  exact hnm ((buildCsvHeaderIndex_isSome _ _).mp hs).1

/-- C9: when the marker CSV's header row lacks any of the required columns
`dataset, model, marker_style, accuracy, rank`, the load is a thrown
failure (`Except.error`), no dataset mapping is produced, and the
process-wide marker data stays unset (`loadMarkerData` returns `none`). -/
theorem loadMarkerData_missing_column (pFloat : JStr → Option ℚ)
    (pInt : JStr → Option Int) (csvText : JStr)
    (hmiss : ¬ (jstr "dataset" ∈ (parseSimpleCsv csvText).headers ∧
      jstr "model" ∈ (parseSimpleCsv csvText).headers ∧
      jstr "marker_style" ∈ (parseSimpleCsv csvText).headers ∧
      jstr "accuracy" ∈ (parseSimpleCsv csvText).headers ∧
      jstr "rank" ∈ (parseSimpleCsv csvText).headers)) :
    (∃ e, loadMarkerDataResult pFloat pInt csvText = Except.error e) ∧
    loadMarkerData pFloat pInt csvText = none := by
  have hcond : markerMissingColumns csvText ≠ [] := by
    unfold markerMissingColumns
    by_cases h1 : jstr "dataset" ∈ (parseSimpleCsv csvText).headers
    · by_cases h2 : jstr "model" ∈ (parseSimpleCsv csvText).headers
      · by_cases h3 : jstr "marker_style" ∈ (parseSimpleCsv csvText).headers
        · by_cases h4 : jstr "accuracy" ∈ (parseSimpleCsv csvText).headers
          · by_cases h5 : jstr "rank" ∈ (parseSimpleCsv csvText).headers
            · exact absurd ⟨h1, h2, h3, h4, h5⟩ hmiss
            · rw [markerHeaderIdx?_none_of_not_mem csvText _ h5]
              simp
          · rw [markerHeaderIdx?_none_of_not_mem csvText _ h4]
            simp
        · rw [markerHeaderIdx?_none_of_not_mem csvText _ h3]
          simp
      · rw [markerHeaderIdx?_none_of_not_mem csvText _ h2]
        simp
    · rw [markerHeaderIdx?_none_of_not_mem csvText _ h1]
      simp
  constructor
  · refine ⟨jstr "marker_acc.csv is missing required columns: " ++
      joinCommaSpace (markerMissingColumns csvText), ?_⟩
    unfold loadMarkerDataResult
    rw [if_pos hcond]
  · unfold loadMarkerData loadMarkerDataResult
    rw [if_pos hcond]
    rfl

theorem loadMarkerData_missing_column_witness :
    (∃ e, loadMarkerDataResult (fun _ => none) (fun _ => none)
      (jstr "dataset,model,marker_style,accuracy\na,b,c,1") = Except.error e) ∧
    loadMarkerData (fun _ => none) (fun _ => none)
      (jstr "dataset,model,marker_style,accuracy\na,b,c,1") = none :=
  loadMarkerData_missing_column (fun _ => none) (fun _ => none)
    (jstr "dataset,model,marker_style,accuracy\na,b,c,1") (by decide)

theorem alGet?_mapAdjust {α : Type} (m : List (JStr × List α)) (k k' : JStr)
    (r : α) :
    alGet? (m.map (fun p => if p.1 = k then (p.1, p.2 ++ [r]) else p)) k' =
      if k' = k then (alGet? m k').map (fun l => l ++ [r]) else alGet? m k' := by
  induction m with
  | nil => by_cases h : k' = k <;> simp [alGet?, h]
  | cons p rest ih =>
    simp only [List.map_cons, alGet?]
    by_cases hp : p.1 = k
    · rw [if_pos hp]
      by_cases h' : k' = k
      · rw [if_pos h', if_pos (hp.trans h'.symm), if_pos (hp.trans h'.symm)]
        rfl
      · rw [if_neg h', if_neg (fun he => h' (he.symm.trans hp)),
          if_neg (fun he => h' (he.symm.trans hp))]
        rw [ih, if_neg h']
    · rw [if_neg hp]
      by_cases hpk : p.1 = k'
      · rw [if_pos hpk, if_pos hpk]
        by_cases h' : k' = k
        · exact absurd (hpk.trans h') hp
        · rw [if_neg h']
      · rw [if_neg hpk, if_neg hpk, ih]

theorem groupStep_get_self {α : Type} (key : α → JStr)
    (m : List (JStr × List α)) (r : α) :
    alGet? (groupStep key m r) (key r) =
      some ((alGet? m (key r)).getD [] ++ [r]) := by
  unfold groupStep
  by_cases h : (alGet? m (key r)).isSome
  · rw [if_pos h, alGet?_mapAdjust, if_pos rfl]
    obtain ⟨v, hv⟩ := Option.isSome_iff_exists.mp h
    rw [hv]
    rfl
  · rw [if_neg h]
    have hnone : alGet? m (key r) = none := by
      rwa [Option.not_isSome_iff_eq_none] at h
    rw [alGet?_append_self m _ _ hnone, hnone]
    rfl

theorem groupStep_get_ne {α : Type} (key : α → JStr)
    (m : List (JStr × List α)) (r : α) (k : JStr) (h : k ≠ key r) :
    alGet? (groupStep key m r) k = alGet? m k := by
  unfold groupStep
  by_cases hc : (alGet? m (key r)).isSome
  · rw [if_pos hc, alGet?_mapAdjust, if_neg h]
  · rw [if_neg hc]
    exact alGet?_append_ne m _ k _ h

theorem groupFold_get {α : Type} (key : α → JStr) (rows : List α) :
    ∀ (m : List (JStr × List α)) (k : JStr),
      alGet? (rows.foldl (groupStep key) m) k =
        if rows.any (fun r => key r == k) then
          some ((alGet? m k).getD [] ++ rows.filter (fun r => key r == k))
        else alGet? m k := by
  induction rows with
  | nil => intro m k; simp
  | cons r t ih =>
    intro m k
    simp only [List.foldl_cons, List.any_cons, List.filter_cons]
    by_cases hrk : key r = k
    · have hb : (key r == k) = true := by simp [hrk]
      rw [ih (groupStep key m r) k]
      subst hrk
      rw [groupStep_get_self]
      simp only [hb, Bool.true_or, if_true, Option.getD_some]
      by_cases hany : t.any (fun r' => key r' == key r) = true
      · rw [if_pos hany]
        simp
      · rw [if_neg hany]
        have hfil : t.filter (fun r' => key r' == key r) = [] := by
          rw [List.filter_eq_nil_iff]
          intro a ha hpa
          exact hany (List.any_eq_true.mpr ⟨a, ha, hpa⟩)
        rw [hfil]
    · have hb : (key r == k) = false := by simp [hrk]
      rw [ih (groupStep key m r) k, groupStep_get_ne key m r k (fun he => hrk he.symm)]
      simp [hb]

theorem keys_mapAdjust {α : Type} (m : List (JStr × List α)) (k : JStr) (r : α) :
    (m.map (fun p => if p.1 = k then (p.1, p.2 ++ [r]) else p)).map (fun p => p.1) =
      m.map (fun p => p.1) := by
  induction m with
  | nil => rfl
  | cons p rest ih =>
    simp only [List.map_cons]
    by_cases hp : p.1 = k
    · rw [if_pos hp]
      simp only [ih]
    · rw [if_neg hp]
      simp only [ih]

theorem groupStep_keys {α : Type} (key : α → JStr) (m : List (JStr × List α))
    (r : α) :
    (groupStep key m r).map (fun p => p.1) =
      dedupStep (m.map (fun p => p.1)) (key r) := by
  unfold groupStep dedupStep
  by_cases h : (alGet? m (key r)).isSome
  · rw [if_pos h, if_pos ((alGet?_isSome_iff_mem_keys m (key r)).mp h)]
    exact keys_mapAdjust m (key r) r
  · rw [if_neg h,
      if_neg (fun hm => h ((alGet?_isSome_iff_mem_keys m (key r)).mpr hm))]
    simp

theorem groupFold_keys {α : Type} (key : α → JStr) (rows : List α) :
    ∀ m : List (JStr × List α),
      (rows.foldl (groupStep key) m).map (fun p => p.1) =
        (rows.map key).foldl dedupStep (m.map (fun p => p.1)) := by
  induction rows with
  | nil => intro m; rfl
  | cons r t ih =>
    intro m
    simp only [List.foldl_cons, List.map_cons]
    rw [ih (groupStep key m r), groupStep_keys]

theorem groupByKey_get {α : Type} (key : α → JStr) (rows : List α) (k : JStr) :
    (alGet? (groupByKey key rows) k).getD [] =
      rows.filter (fun r => key r == k) := by
  unfold groupByKey
  rw [groupFold_get]
  by_cases h : rows.any (fun r => key r == k) = true
  · rw [if_pos h]
    rfl
  · rw [if_neg h]
    have hfil : rows.filter (fun r => key r == k) = [] := by
      rw [List.filter_eq_nil_iff]
      intro a ha hpa
      exact h (List.any_eq_true.mpr ⟨a, ha, hpa⟩)
    rw [hfil]
    rfl

theorem groupByKey_keys {α : Type} (key : α → JStr) (rows : List α) :
    (groupByKey key rows).map (fun p => p.1) = dedupFirst (rows.map key) := by
  unfold groupByKey
  rw [groupFold_keys]
  rfl

theorem foldl_min_spec (t : List Int) : ∀ h : Int,
    t.foldl min h ∈ h :: t ∧ ∀ x ∈ h :: t, t.foldl min h ≤ x := by
  induction t with
  | nil =>
    intro h
    exact ⟨by simp, by simp⟩
  | cons a t ih =>
    intro h
    obtain ⟨hmem, hle⟩ := ih (min h a)
    constructor
    · simp only [List.foldl_cons]
      rcases List.mem_cons.mp hmem with he | ht
        <;> rcases min_choice h a with hc | hc
      · rw [he, hc]
        simp
      · rw [he, hc]
        simp
      · simp [ht]
      · simp [ht]
    · intro x hx
      simp only [List.foldl_cons]
      rcases List.mem_cons.mp hx with he | hx'
      · rw [he]
        exact le_trans (hle _ (by simp)) (min_le_left h a)
      · rcases List.mem_cons.mp hx' with he2 | hx''
        · rw [he2]
          exact le_trans (hle _ (by simp)) (min_le_right h a)
        · exact hle x (by simp [hx''])

theorem foldl_max_spec (t : List Int) : ∀ h : Int,
    t.foldl max h ∈ h :: t ∧ ∀ x ∈ h :: t, x ≤ t.foldl max h := by
  induction t with
  | nil =>
    intro h
    exact ⟨by simp, by simp⟩
  | cons a t ih =>
    intro h
    obtain ⟨hmem, hle⟩ := ih (max h a)
    constructor
    · simp only [List.foldl_cons]
      rcases List.mem_cons.mp hmem with he | ht
        <;> rcases max_choice h a with hc | hc
      · rw [he, hc]
        simp
      · rw [he, hc]
        simp
      · simp [ht]
      · simp [ht]
    · intro x hx
      simp only [List.foldl_cons]
      rcases List.mem_cons.mp hx with he | hx'
      · rw [he]
        exact le_trans (le_max_left h a) (hle _ (by simp))
      · rcases List.mem_cons.mp hx' with he2 | hx''
        · rw [he2]
          exact le_trans (le_max_right h a) (hle _ (by simp))
        · exact hle x (by simp [hx''])

theorem panelFold_flatMap (f : JStr → List JpegSegment × List JpegDot) :
    ∀ (models : List JStr) (a : List JpegSegment) (b : List JpegDot),
      models.foldl (fun acc m => (acc.1 ++ (f m).1, acc.2 ++ (f m).2)) (a, b) =
        (a ++ models.flatMap (fun m => (f m).1),
         b ++ models.flatMap (fun m => (f m).2)) := by
  intro models
  induction models with
  | nil => intro a b; simp
  | cons m t ih =>
    intro a b
    simp only [List.foldl_cons, List.flatMap_cons]
    rw [ih]
    simp

theorem jpegByModel_eq (rows : List JpegRankRecord) (benchKey : JStr) :
    jpegByModel rows benchKey =
      groupByKey (fun r => r.model) (jpegBenchRows rows benchKey) := by
  unfold jpegByModel jpegBenchRows
  rw [groupByKey_get]

theorem jpegPanel_eq_flatMap (rows : List JpegRankRecord) (benchKey : JStr) :
    jpegPanel rows benchKey =
      ⟨(jpegModelsSorted rows benchKey).flatMap
        (fun m => (jpegModelEmit (jpegByModel rows benchKey) m).1),
       (jpegModelsSorted rows benchKey).flatMap
        (fun m => (jpegModelEmit (jpegByModel rows benchKey) m).2)⟩ := by
  unfold jpegPanel
  rw [panelFold_flatMap (fun m => jpegModelEmit (jpegByModel rows benchKey) m)]
  simp

theorem jpegModelPoints_perm (byModel : List (JStr × List JpegRankRecord))
    (m : JStr) :
    List.Perm (jpegModelPoints byModel m) ((alGet? byModel m).getD []) :=
  List.mergeSort_perm _ _

theorem jpegModelEmit_char (byModel : List (JStr × List JpegRankRecord))
    (m : JStr) :
    (∀ s ∈ (jpegModelEmit byModel m).1, s.model = m ∧
      s.minRank ∈ ((alGet? byModel m).getD []).filterMap (fun r => r.rank) ∧
      (∀ x ∈ ((alGet? byModel m).getD []).filterMap (fun r => r.rank),
        s.minRank ≤ x) ∧
      s.maxRank ∈ ((alGet? byModel m).getD []).filterMap (fun r => r.rank) ∧
      (∀ x ∈ ((alGet? byModel m).getD []).filterMap (fun r => r.rank),
        x ≤ s.maxRank)) ∧
    (((alGet? byModel m).getD []).filterMap (fun r => r.rank) ≠ [] →
      ∃ s, (jpegModelEmit byModel m).1 = [s]) ∧
    (∀ dt ∈ (jpegModelEmit byModel m).2, dt.model = m ∧
      ∃ r ∈ (alGet? byModel m).getD [], r.jpeg_quality = jstr "default" ∧
        r.rank = some dt.rank) ∧
    (∀ r0, ((alGet? byModel m).getD []).filter
        (fun r => r.jpeg_quality == jstr "default") = [r0] →
      ((alGet? byModel m).getD []).filterMap (fun r => r.rank) ≠ [] →
      ∀ d : Int, (JpegDot.mk m d ∈ (jpegModelEmit byModel m).2 ↔
        r0.rank = some d)) := by
  have hperm := jpegModelPoints_perm byModel m
  have hrperm : List.Perm ((jpegModelPoints byModel m).filterMap (fun r => r.rank))
      (((alGet? byModel m).getD []).filterMap (fun r => r.rank)) :=
    hperm.filterMap _
  unfold jpegModelEmit
  cases hranks : (jpegModelPoints byModel m).filterMap (fun r => r.rank) with
  | nil =>
    have hnil : ((alGet? byModel m).getD []).filterMap (fun r => r.rank) = [] := by
      rw [hranks] at hrperm
      exact hrperm.symm.eq_nil
    refine ⟨by simp, fun h => absurd hnil h, by simp, fun r0 _ h => absurd hnil h⟩
  | cons h t =>
    rw [hranks] at hrperm
    have hminmax1 := foldl_min_spec t h
    have hminmax2 := foldl_max_spec t h
    refine ⟨?_, fun _ => ⟨_, rfl⟩, ?_, ?_⟩
    · intro s hs
      rw [List.mem_singleton] at hs
      subst hs
      refine ⟨rfl, ?_, ?_, ?_, ?_⟩
      · exact hrperm.mem_iff.mp (hminmax1.1)
      · intro x hx
        exact hminmax1.2 x (hrperm.mem_iff.mpr hx)
      · exact hrperm.mem_iff.mp (hminmax2.1)
      · intro x hx
        exact hminmax2.2 x (hrperm.mem_iff.mpr hx)
    · intro dt hdt
      cases hdr : ((jpegModelPoints byModel m).find?
          (fun p => p.jpeg_quality == jstr "default")).bind (fun p => p.rank) with
      | none =>
        rw [hdr] at hdt
        simp at hdt
      | some d =>
        rw [hdr] at hdt
        rw [List.mem_singleton] at hdt
        subst hdt
        obtain ⟨r1, hr1, hr1rank⟩ := Option.bind_eq_some.mp hdr
        refine ⟨rfl, r1, ?_, ?_, hr1rank⟩
        · exact hperm.mem_iff.mp (List.mem_of_find?_eq_some hr1)
        · have := List.find?_some hr1
          simpa using this
    · intro r0 hr0 _ d
      have hfil : List.Perm ((jpegModelPoints byModel m).filter
          (fun r => r.jpeg_quality == jstr "default")) [r0] := by
        rw [← hr0]
        exact hperm.filter _
      constructor
      · intro hdot
        cases hdr : ((jpegModelPoints byModel m).find?
            (fun p => p.jpeg_quality == jstr "default")).bind (fun p => p.rank) with
        | none =>
          rw [hdr] at hdot
          simp at hdot
        | some d' =>
          rw [hdr] at hdot
          rw [List.mem_singleton] at hdot
          have hd' : d' = d := congrArg JpegDot.rank hdot.symm
          subst hd'
          obtain ⟨r1, hr1, hr1rank⟩ := Option.bind_eq_some.mp hdr
          have hr1mem : r1 ∈ (jpegModelPoints byModel m).filter
              (fun r => r.jpeg_quality == jstr "default") := by
            rw [List.mem_filter]
            have hp1 := List.find?_some hr1
            exact ⟨List.mem_of_find?_eq_some hr1, hp1⟩
          have : r1 ∈ [r0] := hfil.mem_iff.mp hr1mem
          rw [List.mem_singleton] at this
          subst this
          exact hr1rank
      · intro hrank
        have hr0mem : r0 ∈ (jpegModelPoints byModel m).filter
            (fun r => r.jpeg_quality == jstr "default") :=
          hfil.mem_iff.mpr (by simp)
        rw [List.mem_filter] at hr0mem
        have hsome : ((jpegModelPoints byModel m).find?
            (fun p => p.jpeg_quality == jstr "default")).isSome :=
          List.find?_isSome.mpr ⟨r0, hr0mem.1, hr0mem.2⟩
        obtain ⟨r1, hr1⟩ := Option.isSome_iff_exists.mp hsome
        have hr1mem : r1 ∈ (jpegModelPoints byModel m).filter
            (fun r => r.jpeg_quality == jstr "default") := by
          rw [List.mem_filter]
          have hp1 := List.find?_some hr1
          exact ⟨List.mem_of_find?_eq_some hr1, hp1⟩
        have hr1r0 : r1 = r0 := by
          have := hfil.mem_iff.mp hr1mem
          rwa [List.mem_singleton] at this
        subst hr1r0
        have hdr : ((jpegModelPoints byModel m).find?
            (fun p => p.jpeg_quality == jstr "default")).bind
              (fun p => p.rank) = some d := by
          rw [hr1]
          exact hrank
        rw [hdr]
        simp

theorem jpegByModel_get (rows : List JpegRankRecord) (bench m : JStr) :
    (alGet? (jpegByModel rows bench) m).getD [] =
      (jpegBenchRows rows bench).filter (fun r => r.model == m) := by
  rw [jpegByModel_eq, groupByKey_get]

theorem mem_jpegModelsSorted (rows : List JpegRankRecord) (bench m : JStr) :
    m ∈ jpegModelsSorted rows bench ↔
      ∃ r ∈ jpegBenchRows rows bench, r.model = m := by
  unfold jpegModelsSorted
  rw [List.mem_mergeSort, jpegByModel_eq, groupByKey_keys, mem_dedupFirst]
  constructor
  · intro hm
    obtain ⟨r, hr, he⟩ := List.mem_map.mp hm
    exact ⟨r, hr, he⟩
  · rintro ⟨r, hr, he⟩
    exact List.mem_map.mpr ⟨r, hr, he⟩

theorem jpegPanel_ranges_general (rows : List JpegRankRecord)
    (bench m : JStr)
    (h1 : jpegModelRanks (jpegBenchRows rows bench) m ≠ []) :
    (∃ mn mx, JpegSegment.mk m mn mx ∈ (jpegPanel rows bench).segments ∧
      mn ∈ jpegModelRanks (jpegBenchRows rows bench) m ∧
      (∀ r ∈ jpegModelRanks (jpegBenchRows rows bench) m, mn ≤ r) ∧
      mx ∈ jpegModelRanks (jpegBenchRows rows bench) m ∧
      (∀ r ∈ jpegModelRanks (jpegBenchRows rows bench) m, r ≤ mx)) ∧
    (∀ d : Int, JpegDot.mk m d ∈ (jpegPanel rows bench).dots →
      ∃ r ∈ jpegBenchRows rows bench, r.model = m ∧
        r.jpeg_quality = jstr "default" ∧ r.rank = some d) ∧
    ((jpegBenchRows rows bench).filter
        (fun r => r.model == m && r.jpeg_quality == jstr "default") = [] →
      ∀ d : Int, JpegDot.mk m d ∉ (jpegPanel rows bench).dots) ∧
    (∀ r0, (jpegBenchRows rows bench).filter
        (fun r => r.model == m && r.jpeg_quality == jstr "default") = [r0] →
      ∀ d : Int, (JpegDot.mk m d ∈ (jpegPanel rows bench).dots ↔
        r0.rank = some d)) := by
  have h1' : ((jpegBenchRows rows bench).filter
      (fun r => r.model == m)).filterMap (fun r => r.rank) ≠ [] := h1
  have hchar := jpegModelEmit_char (jpegByModel rows bench) m
  rw [jpegByModel_get rows bench m] at hchar
  have hpanel := jpegPanel_eq_flatMap rows bench
  have hm_sorted : m ∈ jpegModelsSorted rows bench := by
    rw [mem_jpegModelsSorted]
    cases hfe : (jpegBenchRows rows bench).filter (fun r => r.model == m) with
    | nil =>
      exfalso
      apply h1'
      rw [hfe]
      rfl
    | cons r t =>
      have hrmem : r ∈ (jpegBenchRows rows bench).filter
          (fun r => r.model == m) := by
        rw [hfe]
        simp
      rw [List.mem_filter] at hrmem
      exact ⟨r, hrmem.1, by simpa using hrmem.2⟩
  have hsound : ∀ d : Int, JpegDot.mk m d ∈ (jpegPanel rows bench).dots →
      (JpegDot.mk m d ∈ (jpegModelEmit (jpegByModel rows bench) m).2 ∧
       ∃ r ∈ jpegBenchRows rows bench, r.model = m ∧
        r.jpeg_quality = jstr "default" ∧ r.rank = some d) := by
    intro d hdot
    rw [hpanel] at hdot
    obtain ⟨m', hm', hin⟩ := List.mem_flatMap.mp hdot
    have hchar' := (jpegModelEmit_char (jpegByModel rows bench) m').2.2.1
      (JpegDot.mk m d) hin
    have hmm : m = m' := hchar'.1
    subst hmm
    obtain ⟨_, r, hr, hq, hrk⟩ := hchar'
    rw [jpegByModel_get rows bench m] at hr
    rw [List.mem_filter] at hr
    exact ⟨hin, r, hr.1, by simpa using hr.2, hq, hrk⟩
  refine ⟨?_, ?_, ?_, ?_⟩
  · obtain ⟨s, hsone⟩ := hchar.2.1 h1'
    have hsmem : s ∈ (jpegModelEmit (jpegByModel rows bench) m).1 := by
      rw [hsone]
      simp
    obtain ⟨hsm, hmin1, hmin2, hmax1, hmax2⟩ := hchar.1 s hsmem
    obtain ⟨smodel, smin, smax⟩ := s
    simp only at hsm
    subst hsm
    refine ⟨smin, smax, ?_, hmin1, hmin2, hmax1, hmax2⟩
    rw [hpanel]
    exact List.mem_flatMap.mpr ⟨smodel, hm_sorted, hsmem⟩
  · intro d hdot
    exact (hsound d hdot).2
  · intro hfe d hdot
    obtain ⟨_, r, hr, hm', hq, hrk⟩ := hsound d hdot
    have : r ∈ (jpegBenchRows rows bench).filter
        (fun r => r.model == m && r.jpeg_quality == jstr "default") := by
      rw [List.mem_filter]
      refine ⟨hr, ?_⟩
      rw [Bool.and_eq_true]
      constructor
      · simp [hm']
      · simp [hq]
    rw [hfe] at this
    simp at this
  · intro r0 hr0 d
    have hptsfil : ((jpegBenchRows rows bench).filter
        (fun r => r.model == m)).filter
          (fun r => r.jpeg_quality == jstr "default") = [r0] := by
      rw [List.filter_filter]
      rw [List.filter_congr (fun x _ => Bool.and_comm _ _)]
      exact hr0
    have hiff := hchar.2.2.2 r0 hptsfil h1' d
    constructor
    · intro hdot
      exact hiff.mp (hsound d hdot).1
    · intro hrk
      rw [hpanel]
      exact List.mem_flatMap.mpr ⟨m, hm_sorted, hiff.mpr hrk⟩

/-- C7: for every model of a benchmark with at least one finite rank, the
panel contains a range segment from the minimum to the maximum of that
model's ranks over all its quality variants; a default marker appears only
with the rank of one of the model's "default" records, never when the
model has no default record, and, when the model has exactly one default
record, exactly at that record's (finite) rank.  In the §8 scenario
(`{default: 3, jpeg70: 5, jpeg90: 2}`) the range is `[2, 5]` and the
marker sits at `3`. -/
theorem jpegPanel_ranges :
    (∀ (rows : List JpegRankRecord) (bench m : JStr),
      jpegModelRanks (jpegBenchRows rows bench) m ≠ [] →
      (∃ mn mx, JpegSegment.mk m mn mx ∈ (jpegPanel rows bench).segments ∧
        mn ∈ jpegModelRanks (jpegBenchRows rows bench) m ∧
        (∀ r ∈ jpegModelRanks (jpegBenchRows rows bench) m, mn ≤ r) ∧
        mx ∈ jpegModelRanks (jpegBenchRows rows bench) m ∧
        (∀ r ∈ jpegModelRanks (jpegBenchRows rows bench) m, r ≤ mx)) ∧
      (∀ d : Int, JpegDot.mk m d ∈ (jpegPanel rows bench).dots →
        ∃ r ∈ jpegBenchRows rows bench, r.model = m ∧
          r.jpeg_quality = jstr "default" ∧ r.rank = some d) ∧
      ((jpegBenchRows rows bench).filter
          (fun r => r.model == m && r.jpeg_quality == jstr "default") = [] →
        ∀ d : Int, JpegDot.mk m d ∉ (jpegPanel rows bench).dots) ∧
      (∀ r0, (jpegBenchRows rows bench).filter
          (fun r => r.model == m && r.jpeg_quality == jstr "default") = [r0] →
        ∀ d : Int, (JpegDot.mk m d ∈ (jpegPanel rows bench).dots ↔
          r0.rank = some d))) ∧
    ((∃ mn mx, JpegSegment.mk (jstr "M") mn mx ∈
        (jpegPanel jpegScenarioC7 (jstr "BLINK_RD")).segments ∧
      mn = 2 ∧ mx = 5) ∧
     (∀ d : Int, JpegDot.mk (jstr "M") d ∈
        (jpegPanel jpegScenarioC7 (jstr "BLINK_RD")).dots ↔ d = 3)) := by
  refine ⟨jpegPanel_ranges_general, ?_⟩
  have hgen := jpegPanel_ranges_general jpegScenarioC7 (jstr "BLINK_RD")
    (jstr "M") (by decide)
  obtain ⟨⟨mn, mx, hseg, hmn1, hmn2, hmx1, hmx2⟩, hsound, hnod, huniq⟩ := hgen
  have hranks : jpegModelRanks (jpegBenchRows jpegScenarioC7 (jstr "BLINK_RD"))
      (jstr "M") = [3, 5, 2] := by decide
  rw [hranks] at hmn1 hmn2 hmx1 hmx2
  constructor
  · refine ⟨mn, mx, hseg, ?_, ?_⟩
    · have h2 := hmn2 2 (by simp)
      simp only [List.mem_cons, List.mem_singleton] at hmn1
      rcases hmn1 with rfl | rfl | h0
      · omega
      · omega
      · simp at h0
        omega
    · have h5 := hmx2 5 (by simp)
      simp only [List.mem_cons, List.mem_singleton] at hmx1
      rcases hmx1 with rfl | rfl | h0
      · omega
      · omega
      · simp at h0
        omega
  · intro d
    have hr0 : (jpegBenchRows jpegScenarioC7 (jstr "BLINK_RD")).filter
        (fun r => r.model == jstr "M" && r.jpeg_quality == jstr "default") =
        [⟨jstr "BLINK_RD", jstr "M", jstr "default", some 3⟩] := by decide
    have hiff := huniq _ hr0 d
    constructor
    · intro hdot
      have := hiff.mp hdot
      simpa using this.symm
    · intro hd
      subst hd
      exact hiff.mpr rfl

theorem jpegPanel_ranges_witness :
    (∃ mn mx, JpegSegment.mk (jstr "M") mn mx ∈
        (jpegPanel jpegScenarioC7 (jstr "BLINK_RD")).segments ∧
      mn ∈ jpegModelRanks (jpegBenchRows jpegScenarioC7 (jstr "BLINK_RD"))
        (jstr "M") ∧
      (∀ r ∈ jpegModelRanks (jpegBenchRows jpegScenarioC7 (jstr "BLINK_RD"))
        (jstr "M"), mn ≤ r) ∧
      mx ∈ jpegModelRanks (jpegBenchRows jpegScenarioC7 (jstr "BLINK_RD"))
        (jstr "M") ∧
      (∀ r ∈ jpegModelRanks (jpegBenchRows jpegScenarioC7 (jstr "BLINK_RD"))
        (jstr "M"), r ≤ mx)) ∧
    (∀ d : Int, JpegDot.mk (jstr "M") d ∈
        (jpegPanel jpegScenarioC7 (jstr "BLINK_RD")).dots →
      ∃ r ∈ jpegBenchRows jpegScenarioC7 (jstr "BLINK_RD"), r.model = jstr "M" ∧
        r.jpeg_quality = jstr "default" ∧ r.rank = some d) ∧
    ((jpegBenchRows jpegScenarioC7 (jstr "BLINK_RD")).filter
        (fun r => r.model == jstr "M" && r.jpeg_quality == jstr "default") = [] →
      ∀ d : Int, JpegDot.mk (jstr "M") d ∉
        (jpegPanel jpegScenarioC7 (jstr "BLINK_RD")).dots) ∧
    (∀ r0, (jpegBenchRows jpegScenarioC7 (jstr "BLINK_RD")).filter
        (fun r => r.model == jstr "M" && r.jpeg_quality == jstr "default") = [r0] →
      ∀ d : Int, (JpegDot.mk (jstr "M") d ∈
        (jpegPanel jpegScenarioC7 (jstr "BLINK_RD")).dots ↔ r0.rank = some d)) :=
  jpegPanel_ranges.1 jpegScenarioC7 (jstr "BLINK_RD") (jstr "M") (by decide)
